import Mathlib

/-!
Shallow embedding of the OBK gear-optimiser core
(src/obk/constants.py, src/obk/scoring.py, src/obk/ranges.py,
src/obk/optimiser.py, src/obk/ui_state.py) over exact rationals.

Machine floats are modelled as `ℚ`; numpy arrays become lists; pandas
data frames of parts become `List Part` where a part's sparse stat map is
a total function `String → ℚ` (the catalog accessor zero-fills every
canonical key, so totality is exactly the source semantics).  The module
`src/obk/data.py` (`df_from_category`) is not part of the repository
snapshot, so the catalog is passed explicitly as an opaque read-only
value, as the spec describes it.
-/

/- Re-enable unfolding of rational arithmetic so that concrete runs of
the embedded engine can be evaluated by `decide`. -/
attribute [local semireducible] Rat.add Rat.sub Rat.mul Rat.inv Rat.ofScientific

namespace OBK

/-- A raw stat vector: total function on stat keys (absent keys are 0). -/
abbrev Stats := String → ℚ

/-- One part of equipment: a name and its stat contribution. -/
structure Part where
  name : String
  stats : Stats

/-- Modelled from the spec: the static catalog behind `df_from_category`
(src/obk/data.py is missing from the snapshot).  An opaque read-only
mapping from category to an ordered list of parts whose stat vectors
already cover every canonical key (zero-filled). -/
structure Catalog where
  engine : List Part
  exhaust : List Part
  suspension : List Part
  gearbox : List Part
  trinket : List Part

/-- The user inventory: selected part names per category
(`inventory[cat]` in the source). -/
structure Inventory where
  engine : List String
  exhaust : List String
  suspension : List String
  gearbox : List String
  trinket : List String
deriving DecidableEq

/- ---------------- constants.py ---------------- -/

def CATEGORIES : List String := ["ENGINE", "EXHAUST", "SUSPENSION", "GEARBOX", "TRINKET"]

def MAIN_SCORES : List String := ["race", "coin", "drift", "combat"]

def RAW_STAT_KEYS : List String :=
  ["Speed", "StartBoost", "SlipStreamSpd", "SlowDownSpd",
   "StartCoins", "MaxCoins", "CoinBoostSpd", "CoinBoostTime",
   "DriftSteer", "Steer", "AirDriftTime",
   "UltCharge", "Daze", "SlipStreamRadius",
   "TrickSpd", "BoostPads", "MaxCoinsSpd", "SlipTime", "UltStart", "DriftRate",
   "T1", "T2", "T3"]

def RACE_COEFFS : List (String × ℚ) :=
  [("Speed", 2.8407310966678576), ("SlipStreamSpd", 0.6266318396389959),
   ("StartBoost", 0.42610965095451725), ("SlowDownSpd", 0.10652741273862931)]

def COIN_COEFFS : List (String × ℚ) :=
  [("CoinBoostTime", 2.376095084387809), ("StartCoins", 0.8078722947015423),
   ("CoinBoostSpd", 0.4488179415008568), ("MaxCoins", -0.36721467940979197)]

def DRIFT_COEFFS : List (String × ℚ) :=
  [("AirDriftTime", 2.5183690692408747), ("Steer", 0.25610533511237527),
   ("DriftSteer", 0.22552559564674984)]

def COMBAT_COEFFS : List (String × ℚ) :=
  [("UltCharge", 1.7704918032786885), ("SlipStreamRadius", 0.7377049180327868),
   ("Daze", -0.4918032786885246)]

/-- `MINIMISE_RAW` from optimiser.py: lower raw value is better. -/
def MINIMISE_RAW : List String := ["MaxCoins", "Daze"]

/- ---------------- scoring.py ---------------- -/

/-- One term of `compute_main_scores`: `KEY2IDX.get(stat)` is `None`
(skip) exactly when the stat is not a canonical key. -/
def scoreTerm (totals : Stats) (kc : String × ℚ) : ℚ :=
  if kc.1 ∈ RAW_STAT_KEYS then kc.2 * totals kc.1 else 0

/-- `compute_main_scores` for one coefficient table, applied to one
totals vector. -/
def computeScore (coeffs : List (String × ℚ)) (totals : Stats) : ℚ :=
  (coeffs.map (scoreTerm totals)).sum

/-- The `scores` dict of `compute_main_scores` as a function on the four
score names.  (In Python, looking up any other key raises `KeyError`;
theorems needing the objective or masks therefore assume score keys are
among `MAIN_SCORES`.) -/
def mainScore (k : String) (totals : Stats) : ℚ :=
  if k = "race" then computeScore RACE_COEFFS totals
  else if k = "coin" then computeScore COIN_COEFFS totals
  else if k = "drift" then computeScore DRIFT_COEFFS totals
  else if k = "combat" then computeScore COMBAT_COEFFS totals
  else 0

/-- `_linear_score_df`: per-part linear score (all canonical columns are
present in a catalog data frame). -/
def linearScorePart (coeffs : List (String × ℚ)) (p : Part) : ℚ :=
  (coeffs.map (fun kc => if kc.1 ∈ RAW_STAT_KEYS then kc.2 * p.stats kc.1 else 0)).sum

/-- Descending sort of rationals (used for the top-2 trinket scores). -/
def sortDescQ (l : List ℚ) : List ℚ :=
  l.insertionSort (fun a b => b ≤ a)

/-- `best_single` of `compute_global_score_maxima`. -/
def bestSingle (df : List Part) (coeffs : List (String × ℚ)) : ℚ :=
  match (df.map (linearScorePart coeffs)) with
  | [] => 0
  | s => (sortDescQ s).headD 0

/-- `best_two_trinkets` of `compute_global_score_maxima`. -/
def bestTwoTrinkets (dfT : List Part) (coeffs : List (String × ℚ)) : ℚ :=
  let s := dfT.map (linearScorePart coeffs)
  if s.length < 2 then 0 else ((sortDescQ s).take 2).sum

/-- `compute_global_score_maxima` over an explicit catalog. -/
def computeGlobalScoreMaxima (cat : Catalog) (k : String) : ℚ :=
  let forCoeffs := fun (c : List (String × ℚ)) =>
    bestSingle cat.engine c + bestSingle cat.exhaust c + bestSingle cat.suspension c +
      bestSingle cat.gearbox c + bestTwoTrinkets cat.trinket c
  if k = "race" then forCoeffs RACE_COEFFS
  else if k = "coin" then forCoeffs COIN_COEFFS
  else if k = "drift" then forCoeffs DRIFT_COEFFS
  else if k = "combat" then forCoeffs COMBAT_COEFFS
  else 0

/-- One `k_norm` cell of `normalize_scores_global`: guarded division. -/
def normCell (vmax x : ℚ) : ℚ :=
  if 0 < vmax then x / vmax * 100 else 0

/-- `normalize_scores_global` restricted to the cells it appends: for
every row score value and each main score, the triple
`(k_raw, k_max, k_norm)`. -/
def normalizeScoresGlobal (cat : Catalog) (rowScores : List (String → ℚ)) :
    List (List (String × (ℚ × ℚ × ℚ))) :=
  rowScores.map (fun rs =>
    MAIN_SCORES.map (fun k =>
      (k, (rs k, computeGlobalScoreMaxima cat k, normCell (computeGlobalScoreMaxima cat k) (rs k)))))

/- ---------------- ranges.py ---------------- -/

/-- `_minmax`, min side: per-key componentwise minimum over a category's
selected parts (`0` for an empty frame). -/
def colMin (df : List Part) (k : String) : ℚ :=
  match df with
  | [] => 0
  | p :: ps => (ps.map (fun q => q.stats k)).foldl min (p.stats k)

/-- `_minmax`, max side. -/
def colMax (df : List Part) (k : String) : ℚ :=
  match df with
  | [] => 0
  | p :: ps => (ps.map (fun q => q.stats k)).foldl max (p.stats k)

/-- `np.triu_indices(T, k=1)` in row-major order: all index pairs
`(i, j)` with `i < j < T`, enumerated once each. -/
def pairIdx (T : ℕ) : List (ℕ × ℕ) :=
  (List.range T).flatMap (fun i => ((List.range T).filter (fun j => i < j)).map (fun j => (i, j)))

/-- Errors surfaced by the engine.  `emptyReduction` models the numpy
`ValueError` raised by a zero-size `min`/`max` reduction in
`_trinket_pair_minmax` (its message is not the trinket-count message). -/
inductive OptError where
  | emptyCategory (cat : String)
  | insufficientTrinkets
  | emptyReduction
deriving DecidableEq

instance {ε α : Type} [DecidableEq ε] [DecidableEq α] : DecidableEq (Except ε α) := fun a b =>
  match a, b with
  | .ok x, .ok y => if h : x = y then .isTrue (by rw [h]) else .isFalse (by simp [h])
  | .error e, .error f => if h : e = f then .isTrue (by rw [h]) else .isFalse (by simp [h])
  | .ok _, .error _ => .isFalse (by simp)
  | .error _, .ok _ => .isFalse (by simp)

/-- Default part (placeholder for out-of-range indexing, never selected). -/
def dPart : Part := ⟨"", fun _ => 0⟩

/-- `_trinket_pair_minmax`: componentwise min and max of pair-summed
trinket stats over all unordered pairs; a zero-size reduction (fewer
than two trinkets) raises. -/
def trinketPairBounds (dfT : List Part) : Except OptError ((String → ℚ) × (String → ℚ)) :=
  match pairIdx dfT.length with
  | [] => .error .emptyReduction
  | p :: ps =>
    let pairStats := fun (q : ℕ × ℕ) (k : String) =>
      (dfT.getD q.1 dPart).stats k + (dfT.getD q.2 dPart).stats k
    .ok (fun k => (ps.map (fun q => pairStats q k)).foldl min (pairStats p k),
         fun k => (ps.map (fun q => pairStats q k)).foldl max (pairStats p k))

/-- Componentwise total of the four gear category minima plus the
trinket-pair minimum. -/
def totalMin (dfE dfX dfS dfG : List Part) (tMn : String → ℚ) (k : String) : ℚ :=
  colMin dfE k + colMin dfX k + colMin dfS k + colMin dfG k + tMn k

def totalMax (dfE dfX dfS dfG : List Part) (tMx : String → ℚ) (k : String) : ℚ :=
  colMax dfE k + colMax dfX k + colMax dfS k + colMax dfG k + tMx k

/-- `_lin_minmax`: sign-aware interval propagation through a linear form. -/
def linMinmax (tmin tmax : String → ℚ) (coeffs : List (String × ℚ)) : ℚ × ℚ :=
  coeffs.foldl (fun acc kc =>
    if 0 ≤ kc.2 then (acc.1 + kc.2 * tmin kc.1, acc.2 + kc.2 * tmax kc.1)
    else (acc.1 + kc.2 * tmax kc.1, acc.2 + kc.2 * tmin kc.1)) (0, 0)

/-- The padding applied by `estimate_main_score_ranges`:
`max(1.0, 0.05*(hi-lo) if hi > lo else 1.0)`. -/
def mainPad (lo hi : ℚ) : ℚ :=
  max 1 (if lo < hi then (5 / 100) * (hi - lo) else 1)

/-- The padding applied by `estimate_raw_stat_ranges`:
`max(0.1, 0.05*(hi-lo) if hi > lo else 0.1)`. -/
def rawPad (lo hi : ℚ) : ℚ :=
  max (1 / 10) (if lo < hi then (5 / 100) * (hi - lo) else 1 / 10)

/-- Unpadded interval of one main score. -/
def mainLoHi (dfE dfX dfS dfG : List Part) (tb : (String → ℚ) × (String → ℚ))
    (coeffs : List (String × ℚ)) : ℚ × ℚ :=
  linMinmax (totalMin dfE dfX dfS dfG tb.1) (totalMax dfE dfX dfS dfG tb.2) coeffs

/-- The padded `(lo, hi)` returned for one main score. -/
def mainRangeOf (dfE dfX dfS dfG : List Part) (tb : (String → ℚ) × (String → ℚ))
    (coeffs : List (String × ℚ)) : ℚ × ℚ :=
  let lh := mainLoHi dfE dfX dfS dfG tb coeffs
  (lh.1 - mainPad lh.1 lh.2, lh.2 + mainPad lh.1 lh.2)

/-- `estimate_main_score_ranges` as a function on the four score names. -/
def estimateMainScoreRanges (dfE dfX dfS dfG dfT : List Part) :
    Except OptError (String → ℚ × ℚ) := do
  let tb ← trinketPairBounds dfT
  pure (fun k =>
    if k = "race" then mainRangeOf dfE dfX dfS dfG tb RACE_COEFFS
    else if k = "coin" then mainRangeOf dfE dfX dfS dfG tb COIN_COEFFS
    else if k = "drift" then mainRangeOf dfE dfX dfS dfG tb DRIFT_COEFFS
    else if k = "combat" then mainRangeOf dfE dfX dfS dfG tb COMBAT_COEFFS
    else (0, 0))

/-- Unpadded interval of one raw stat. -/
def rawLoHi (dfE dfX dfS dfG : List Part) (tb : (String → ℚ) × (String → ℚ))
    (k : String) : ℚ × ℚ :=
  (totalMin dfE dfX dfS dfG tb.1 k, totalMax dfE dfX dfS dfG tb.2 k)

/-- The padded `(lo, hi)` returned for one raw stat. -/
def rawRangeOf (dfE dfX dfS dfG : List Part) (tb : (String → ℚ) × (String → ℚ))
    (k : String) : ℚ × ℚ :=
  let lh := rawLoHi dfE dfX dfS dfG tb k
  (lh.1 - rawPad lh.1 lh.2, lh.2 + rawPad lh.1 lh.2)

/-- `estimate_raw_stat_ranges`, as the dict it builds: `some` exactly on
the requested keys. -/
def estimateRawStatRanges (dfE dfX dfS dfG dfT : List Part) (keys : List String) :
    Except OptError (String → Option (ℚ × ℚ)) := do
  let tb ← trinketPairBounds dfT
  pure (fun k => if keys.contains k then some (rawRangeOf dfE dfX dfS dfG tb k) else none)

/- ---------------- optimiser.py ---------------- -/

/-- `OptimiseConfig`.  Mappings are insertion-ordered association lists
(Python dicts); fields the source tests with `is None` are `Option`s. -/
structure OptimiseConfig where
  top_n : ℕ := 20
  weights_main : Option (List (String × ℚ)) := some []
  weights_raw : Option (List (String × ℚ)) := some []
  constraints_main : Option (List (String × (Option ℚ × Option ℚ))) := some []
  constraints_raw : Option (List (String × (Option ℚ × Option ℚ))) := some []
  normalize_objective : Bool := true
  diverse : Bool := true
  min_diff_parts : ℤ := 2
  per_part_max : Option (List (String × Option ℤ)) := none
deriving DecidableEq

/-- The default main weights installed when `weights_main` is falsy. -/
def defaultWeightsMain : List (String × ℚ) :=
  [("race", 1), ("coin", 1), ("drift", 1), ("combat", 1)]

/-- Python truthiness of `config.weights_main` (`None` and `{}` are falsy). -/
def wmFalsy (w : Option (List (String × ℚ))) : Bool :=
  (w.getD []).isEmpty

/-- The value of `config.weights_main` after the defaulting block at the
top of `optimise_builds`. -/
def effWM (cfg : OptimiseConfig) : List (String × ℚ) :=
  if wmFalsy cfg.weights_main then defaultWeightsMain else cfg.weights_main.getD []

def effWR (cfg : OptimiseConfig) : List (String × ℚ) := cfg.weights_raw.getD []

def effCM (cfg : OptimiseConfig) : List (String × (Option ℚ × Option ℚ)) :=
  cfg.constraints_main.getD []

def effCR (cfg : OptimiseConfig) : List (String × (Option ℚ × Option ℚ)) :=
  cfg.constraints_raw.getD []

/-- The config object as the caller observes it after `optimise_builds`
returns: lines 106-113 assign defaults into the caller's config. -/
def configAfterRun (cfg : OptimiseConfig) : OptimiseConfig :=
  { cfg with
    weights_main := if wmFalsy cfg.weights_main then some defaultWeightsMain else cfg.weights_main,
    weights_raw := some (cfg.weights_raw.getD []),
    constraints_main := some (cfg.constraints_main.getD []),
    constraints_raw := some (cfg.constraints_raw.getD []) }

/-- `_filter`: restrict a category frame to the selected names. -/
def filterSel (df : List Part) (names : List String) : List Part :=
  df.filter (fun p => p.name ∈ names)

/-- `_filter` with its empty-selection error. -/
def filt (df : List Part) (names : List String) (catName : String) :
    Except OptError (List Part) :=
  if (filterSel df names).isEmpty then .error (.emptyCategory catName)
  else .ok (filterSel df names)

/-- A result row (the tuple appended at optimiser.py lines 238-250). -/
structure Row where
  objective : ℚ
  race : ℚ
  coin : ℚ
  drift : ℚ
  combat : ℚ
  engine : String
  exhaust : String
  suspension : String
  gearbox : String
  trinket1 : String
  trinket2 : String
deriving DecidableEq

def dRow : Row := ⟨0, 0, 0, 0, 0, "", "", "", "", "", ""⟩

def RESULT_COLS : List String :=
  ["objective", "race", "coin", "drift", "combat",
   "ENGINE", "EXHAUST", "SUSPENSION", "GEARBOX", "TRINKET_1", "TRINKET_2"]

/-- The returned table: pandas frame with its column schema. -/
structure Frame where
  cols : List String
  rows : List Row
deriving DecidableEq

def PART_COLS : List String :=
  ["ENGINE", "EXHAUST", "SUSPENSION", "GEARBOX", "TRINKET_1", "TRINKET_2"]

/-- `row[col]` for the six part columns. -/
def getCol (r : Row) (c : String) : String :=
  if c = "ENGINE" then r.engine
  else if c = "EXHAUST" then r.exhaust
  else if c = "SUSPENSION" then r.suspension
  else if c = "GEARBOX" then r.gearbox
  else if c = "TRINKET_1" then r.trinket1
  else if c = "TRINKET_2" then r.trinket2
  else ""

/-- The de-duplication key: the full part tuple (PART_COLS). -/
def partKey (r : Row) : List String :=
  [r.engine, r.exhaust, r.suspension, r.gearbox, r.trinket1, r.trinket2]

/-- `_hamming_parts`: number of part slots on which two rows differ. -/
def hammingParts (a b : Row) : ℕ :=
  (PART_COLS.filter (fun c => getCol a c ≠ getCol b c)).length

/-- `_minmax_norm`: guarded min-max normalisation with clipping. -/
def minmaxNorm (x lo hi : ℚ) : ℚ :=
  if hi - lo ≤ 1 / 1000000000 then 0
  else min 1 (max 0 ((x - lo) / (hi - lo)))

/-- One main-score objective term (zero weights contribute nothing). -/
def objTermMain (norm : Bool) (mr : String → ℚ × ℚ) (t : Stats) (kw : String × ℚ) : ℚ :=
  if kw.2 = 0 then 0
  else
    let x := mainScore kw.1 t
    let x := if norm then minmaxNorm x (mr kw.1).1 (mr kw.1).2 else x
    kw.2 * x

/-- One raw-stat objective term (non-canonical keys and zero weights are
skipped; `MINIMISE_RAW` stats have their contribution negated, or
complemented under normalisation). -/
def objTermRaw (norm : Bool) (rr : String → Option (ℚ × ℚ)) (t : Stats) (kw : String × ℚ) : ℚ :=
  if kw.1 ∉ RAW_STAT_KEYS then 0
  else if kw.2 = 0 then 0
  else
    let x := t kw.1
    let x := if norm then (match rr kw.1 with
      | some lh => minmaxNorm x lh.1 lh.2
      | none => x) else x
    let x := if kw.1 ∈ MINIMISE_RAW then (if norm then 1 - x else -x) else x
    kw.2 * x

/-- The scalar objective of one build. -/
def objective (norm : Bool) (mr : String → ℚ × ℚ) (rr : String → Option (ℚ × ℚ))
    (wm wr : List (String × ℚ)) (t : Stats) : ℚ :=
  (wm.map (objTermMain norm mr t)).sum + (wr.map (objTermRaw norm rr t)).sum

/-- One bound pair of the constraint mask (inclusive, `None` inactive). -/
def boundOk (v : ℚ) (lohi : Option ℚ × Option ℚ) : Bool :=
  (match lohi.1 with
   | none => true
   | some lo => decide (lo ≤ v)) &&
  (match lohi.2 with
   | none => true
   | some hi => decide (v ≤ hi))

/-- The main-score part of the constraint mask. -/
def passMain (cm : List (String × (Option ℚ × Option ℚ))) (t : Stats) : Bool :=
  cm.all (fun kc => boundOk (mainScore kc.1 t) kc.2)

/-- The raw-stat part of the constraint mask (non-canonical keys skipped). -/
def passRaw (cr : List (String × (Option ℚ × Option ℚ))) (t : Stats) : Bool :=
  cr.all (fun kc => !(decide (kc.1 ∈ RAW_STAT_KEYS)) || boundOk (t kc.1) kc.2)

/-- The full constraint mask for one build. -/
def passes (cm cr : List (String × (Option ℚ × Option ℚ))) (t : Stats) : Bool :=
  passMain cm t && passRaw cr t

/-- The E × X × S × G cross product, engine-major (idx_e repeats slowest,
idx_g fastest). -/
def baseBuilds (dfE dfX dfS dfG : List Part) : List (Part × Part × Part × Part) :=
  dfE.flatMap (fun e => dfX.flatMap (fun x => dfS.flatMap (fun s => dfG.map (fun g => (e, x, s, g)))))

/-- Total stat vector of one candidate build. -/
def buildTotals (dfT : List Part) (p : ℕ × ℕ) (b : Part × Part × Part × Part) : Stats :=
  fun k => b.1.stats k + b.2.1.stats k + b.2.2.1.stats k + b.2.2.2.stats k +
    (dfT.getD p.1 dPart).stats k + (dfT.getD p.2 dPart).stats k

/-- The result tuple appended for one selected build. -/
def mkRowFor (obj : Stats → ℚ) (dfT : List Part) (p : ℕ × ℕ)
    (b : Part × Part × Part × Part) : Row :=
  let t := buildTotals dfT p b
  { objective := obj t
    race := computeScore RACE_COEFFS t
    coin := computeScore COIN_COEFFS t
    drift := computeScore DRIFT_COEFFS t
    combat := computeScore COMBAT_COEFFS t
    engine := b.1.name
    exhaust := b.2.1.name
    suspension := b.2.2.1.name
    gearbox := b.2.2.2.name
    trinket1 := (dfT.getD p.1 dPart).name
    trinket2 := (dfT.getD p.2 dPart).name }

/-- Candidate rows emitted for one trinket pair: objective with masked
rows forced to `⊥` (`-inf`), partial top-`kkeep` selection ordered
descending by objective, skipped entirely when nothing survives. -/
def pairCandidates (pass : Stats → Bool) (obj : Stats → ℚ) (topn : ℕ)
    (dfT : List Part) (base : List (Part × Part × Part × Part)) (p : ℕ × ℕ) : List Row :=
  let entries := base.map (fun b =>
    let t := buildTotals dfT p b
    ((if pass t then ((obj t : ℚ) : WithBot ℚ) else ⊥), mkRowFor obj dfT p b))
  let maskCount := (entries.filter (fun e => decide (e.1 ≠ (⊥ : WithBot ℚ)))).length
  if maskCount = 0 then []
  else
    ((entries.insertionSort (fun a b => b.1 ≤ a.1)).take
      (min (max (topn * 20) topn) maskCount)).map Prod.snd

/-- `df.sort_values("objective", ascending=False)`. -/
def sortDescRows (l : List Row) : List Row :=
  l.insertionSort (fun a b => b.objective ≤ a.objective)

/-- `drop_duplicates(subset=PART_COLS)` (keep the first occurrence). -/
def dedupRowsAux (seen : List (List String)) : List Row → List Row
  | [] => []
  | r :: rs =>
    if partKey r ∈ seen then dedupRowsAux seen rs
    else r :: dedupRowsAux (partKey r :: seen) rs

def dedupRows (l : List Row) : List Row := dedupRowsAux [] l

/- ---- `_diversify_by_parts` ---- -/

/-- Per-column usage counters: `counts[col][value]`. -/
abbrev Counts := String → String → ℕ

def zeroCounts : Counts := fun _ _ => 0

/-- Increment the six per-column counters for a picked row. -/
def bumpCounts (cnt : Counts) (r : Row) : Counts :=
  fun c v => if c ∈ PART_COLS ∧ getCol r c = v then cnt c v + 1 else cnt c v

/-- `ok_quota`: a row is admissible when no configured per-part limit is
already met by its parts (an empty mapping imposes nothing). -/
def okQuota (q : List (String × Option ℤ)) (cnt : Counts) (r : Row) : Bool :=
  q.all (fun cl =>
    if cl.1 ∉ PART_COLS then true
    else match cl.2 with
      | none => true
      | some lim => decide ((cnt cl.1 (getCol r cl.1) : ℤ) < lim))

/-- `add(i)`: record index `i` and bump the counters with its row. -/
def addSel (df : List Row) (st : List ℕ × Counts) (i : ℕ) : List ℕ × Counts :=
  (st.1 ++ [i], bumpCounts st.2 (df.getD i dRow))

/-- One scan of the candidate list (`for i in range(1, len(df))`),
accepting rows that meet the quota and differ from every selected row in
at least `curMin` part slots; breaks once `topn` rows are selected. -/
def scanPick (df : List Row) (topn : ℕ) (q : List (String × Option ℤ)) (curMin : ℤ) :
    List ℕ → List ℕ × Counts × Bool → List ℕ × Counts × Bool
  | [], st => st
  | i :: rest, (sel, cnt, picked) =>
    if i ∈ sel then scanPick df topn q curMin rest (sel, cnt, picked)
    else if !(okQuota q cnt (df.getD i dRow)) then scanPick df topn q curMin rest (sel, cnt, picked)
    else if sel.all (fun j => decide (curMin ≤ (hammingParts (df.getD i dRow) (df.getD j dRow) : ℤ))) then
      let st' := addSel df (sel, cnt) i
      if topn ≤ st'.1.length then (st'.1, st'.2, true)
      else scanPick df topn q curMin rest (st'.1, st'.2, true)
    else scanPick df topn q curMin rest (sel, cnt, picked)

/-- The final fill pass (threshold exhausted, quota still enforced). -/
def fillScan (df : List Row) (topn : ℕ) (q : List (String × Option ℤ)) :
    List ℕ → List ℕ × Counts → List ℕ × Counts
  | [], st => st
  | i :: rest, (sel, cnt) =>
    if i ∈ sel then fillScan df topn q rest (sel, cnt)
    else if !(okQuota q cnt (df.getD i dRow)) then fillScan df topn q rest (sel, cnt)
    else
      let st' := addSel df (sel, cnt) i
      if topn ≤ st'.1.length then st' else fillScan df topn q rest st'

/-- The scanned index list `range(1, len(df))`. -/
def scanIdx (df : List Row) : List ℕ := List.range' 1 (df.length - 1)

/-- The relaxation loop of `_diversify_by_parts`.  The fuel argument is
only a structural-recursion bound: every iteration either grows the
selection or lowers the threshold, so `topn + minDiff.toNat + 1` steps
always reach one of the source's exit points. -/
def diversifyLoop (df : List Row) (topn : ℕ) (q : List (String × Option ℤ)) :
    ℕ → ℤ → List ℕ → Counts → List ℕ
  | 0, _, sel, _ => sel
  | fuel + 1, curMin, sel, cnt =>
    if sel.length < topn ∧ sel.length < df.length then
      let r := scanPick df topn q curMin (scanIdx df) (sel, cnt, false)
      if r.2.2 then diversifyLoop df topn q fuel curMin r.1 r.2.1
      else if 0 < curMin then diversifyLoop df topn q fuel (curMin - 1) sel cnt
      else (fillScan df topn q (scanIdx df) (sel, cnt)).1
    else sel

/-- `_diversify_by_parts`: greedy diverse re-ranking with quota and
threshold relaxation; the best candidate is always taken first. -/
def diversifyByParts (df : List Row) (topn : ℕ) (minDiff : ℤ)
    (q : List (String × Option ℤ)) : List Row :=
  match sortDescRows df with
  | [] => []
  | r0 :: rest =>
    let dfs := r0 :: rest
    let sel := diversifyLoop dfs topn q (topn + minDiff.toNat + 1) minDiff [0]
      (bumpCounts zeroCounts r0)
    sel.map (fun i => dfs.getD i dRow)

/-- The aggregation tail of `optimise_builds`: candidate collection over
all trinket pairs, global descending sort, de-duplication on the part
tuple, then diversity re-ranking or truncation. -/
def optimiseCore (dfE dfX dfS dfG dfT : List Part) (topn : ℕ)
    (pass : Stats → Bool) (obj : Stats → ℚ) (diverse : Bool) (minDiff : ℤ)
    (q : List (String × Option ℤ)) : Frame :=
  let base := baseBuilds dfE dfX dfS dfG
  let results := (pairIdx dfT.length).flatMap (pairCandidates pass obj topn dfT base)
  if results.isEmpty then ⟨RESULT_COLS, []⟩
  else
    let df := dedupRows (sortDescRows results)
    ⟨RESULT_COLS, if diverse then diversifyByParts df topn minDiff q else df.take topn⟩

/-- `optimise_builds` after the category filters: estimates
normalisation ranges (when enabled) *before* the trinket-count check,
as the source does. -/
def optimisePost (dfE dfX dfS dfG dfT : List Part) (cfg : OptimiseConfig) :
    Except OptError Frame := do
  let wm := effWM cfg
  let wr := effWR cfg
  let norms ← if cfg.normalize_objective then do
      let mr ← estimateMainScoreRanges dfE dfX dfS dfG dfT
      let rawKeys := (wr.map Prod.fst).filter (fun k => RAW_STAT_KEYS.contains k)
      let rr ← if rawKeys.isEmpty then pure (fun _ => (none : Option (ℚ × ℚ)))
        else estimateRawStatRanges dfE dfX dfS dfG dfT rawKeys
      pure (mr, rr)
    else pure ((fun _ => ((0 : ℚ), (0 : ℚ))), fun _ => (none : Option (ℚ × ℚ)))
  if dfT.length < 2 then .error .insufficientTrinkets
  else .ok (optimiseCore dfE dfX dfS dfG dfT cfg.top_n
    (passes (effCM cfg) (effCR cfg))
    (objective cfg.normalize_objective norms.1 norms.2 wm wr)
    cfg.diverse cfg.min_diff_parts (cfg.per_part_max.getD []))

/-- `optimise_builds`. -/
def optimise (cat : Catalog) (inv : Inventory) (cfg : OptimiseConfig) :
    Except OptError Frame := do
  let dfE ← filt cat.engine inv.engine "ENGINE"
  let dfX ← filt cat.exhaust inv.exhaust "EXHAUST"
  let dfS ← filt cat.suspension inv.suspension "SUSPENSION"
  let dfG ← filt cat.gearbox inv.gearbox "GEARBOX"
  let dfT ← filt cat.trinket inv.trinket "TRINKET"
  optimisePost dfE dfX dfS dfG dfT cfg

/- ---------------- ui_state.py: make_run_signature ---------------- -/

/-- Lexicographic strict order on code-point lists (Python string `<`). -/
def charsLt : List Char → List Char → Bool
  | [], [] => false
  | [], _ :: _ => true
  | _ :: _, [] => false
  | a :: as, b :: bs =>
    if a.toNat < b.toNat then true
    else if b.toNat < a.toNat then false
    else charsLt as bs

/-- Python string `<` (code-point lexicographic). -/
def pyStrLt (a b : String) : Bool := charsLt a.data b.data

/-- Python string `<=` (total order, so `a <= b` iff `not (b < a)`). -/
def pyStrLe (a b : String) : Bool := !(pyStrLt b a)

/-- Python `sorted` on strings. -/
def pySortedStr (l : List String) : List String :=
  l.insertionSort (fun a b => pyStrLe a b = true)

/-- Python `sorted` on dict items (lexicographic on the key, then the
value; dict keys are distinct so the value order is never consulted). -/
def pySortedPairs (l : List (String × ℚ)) : List (String × ℚ) :=
  l.insertionSort (fun a b => (pyStrLt a.1 b.1 || (a.1 == b.1 && decide (a.2 ≤ b.2))) = true)

/-- The run signature tuple of `make_run_signature`. -/
structure RunSig where
  inv : List (String × List String)
  wMain : List (String × ℚ)
  wRaw : List (String × ℚ)
  cMain : List (String × (Option ℚ × Option ℚ))
  cRaw : List (String × (Option ℚ × Option ℚ))
  preset : String
  topn : ℕ
  norm : Bool
deriving DecidableEq

/-- `inventory.get(cat, [])` for the five categories. -/
def invNames (inv : Inventory) (cat : String) : List String :=
  if cat = "ENGINE" then inv.engine
  else if cat = "EXHAUST" then inv.exhaust
  else if cat = "SUSPENSION" then inv.suspension
  else if cat = "GEARBOX" then inv.gearbox
  else if cat = "TRINKET" then inv.trinket
  else []

/-- `make_run_signature` (the preset name lives in the session state and
is passed explicitly). -/
def makeRunSignature (inv : Inventory) (cfg : OptimiseConfig) (preset : String) : RunSig :=
  { inv := CATEGORIES.map (fun cat => (cat, pySortedStr (invNames inv cat)))
    wMain := pySortedPairs (cfg.weights_main.getD [])
    wRaw := pySortedPairs (cfg.weights_raw.getD [])
    cMain := (pySortedStr MAIN_SCORES).map
      (fun k => (k, (((cfg.constraints_main.getD []).lookup k).getD (none, none))))
    cRaw := (pySortedStr RAW_STAT_KEYS).map
      (fun k => (k, (((cfg.constraints_raw.getD []).lookup k).getD (none, none))))
    preset := preset
    topn := cfg.top_n
    norm := cfg.normalize_objective }

/- ================================================================
   Shared concrete inputs used to witness the theorems below.
   ================================================================ -/

/-- A stat vector supported on `Speed` only. -/
def statOf (v : ℚ) : Stats := fun k => if k = "Speed" then v else 0

def zeroStats : Stats := fun _ => 0

def catW : Catalog :=
  ⟨[⟨"e1", statOf 8⟩, ⟨"e2", statOf 7⟩], [⟨"x1", statOf 0⟩], [⟨"s1", statOf 0⟩],
   [⟨"g1", statOf 0⟩], [⟨"t1", statOf 4⟩, ⟨"t2", statOf 2⟩, ⟨"t3", statOf 0⟩]⟩

def invW : Inventory := ⟨["e1", "e2"], ["x1"], ["s1"], ["g1"], ["t1", "t2", "t3"]⟩

def cfgW : OptimiseConfig :=
  { top_n := 2, weights_main := some [("race", 1)], normalize_objective := false,
    diverse := true, min_diff_parts := 2, per_part_max := none }

/- ================================================================
   Helper lemmas.
   ================================================================ -/

theorem foldl_min_le_init (a : ℚ) (l : List ℚ) : l.foldl min a ≤ a := by
  induction l generalizing a with
  | nil => exact le_refl a
  | cons b t ih => exact le_trans (ih (min a b)) (min_le_left a b)

theorem le_foldl_max_init (a : ℚ) (l : List ℚ) : a ≤ l.foldl max a := by
  induction l generalizing a with
  | nil => exact le_refl a
  | cons b t ih => exact le_trans (le_max_left a b) (ih (max a b))

theorem colMin_le_colMax (df : List Part) (k : String) : colMin df k ≤ colMax df k := by
  cases df with
  | nil => simp [colMin, colMax]
  | cons p ps =>
    exact le_trans (foldl_min_le_init (p.stats k) _) (le_foldl_max_init (p.stats k) _)

theorem trinketPairBounds_le (dfT : List Part) (tb : (String → ℚ) × (String → ℚ))
    (htb : trinketPairBounds dfT = .ok tb) (k : String) : tb.1 k ≤ tb.2 k := by
  unfold trinketPairBounds at htb
  cases h : pairIdx dfT.length with
  | nil => rw [h] at htb; exact absurd htb (by simp)
  | cons p ps =>
    rw [h] at htb
    have := Except.ok.inj htb
    subst this
    exact le_trans (foldl_min_le_init _ _) (le_foldl_max_init _ _)

theorem totalMin_le_totalMax (dfE dfX dfS dfG : List Part) (tb : (String → ℚ) × (String → ℚ))
    (htb : ∀ k, tb.1 k ≤ tb.2 k) (k : String) :
    totalMin dfE dfX dfS dfG tb.1 k ≤ totalMax dfE dfX dfS dfG tb.2 k := by
  unfold totalMin totalMax
  have h1 := colMin_le_colMax dfE k
  have h2 := colMin_le_colMax dfX k
  have h3 := colMin_le_colMax dfS k
  have h4 := colMin_le_colMax dfG k
  have h5 := htb k
  linarith

theorem linMinmax_le (tmin tmax : String → ℚ) (coeffs : List (String × ℚ))
    (h : ∀ k, tmin k ≤ tmax k) :
    (linMinmax tmin tmax coeffs).1 ≤ (linMinmax tmin tmax coeffs).2 := by
  unfold linMinmax
  suffices H : ∀ (acc : ℚ × ℚ), acc.1 ≤ acc.2 →
      (coeffs.foldl (fun acc kc =>
        if 0 ≤ kc.2 then (acc.1 + kc.2 * tmin kc.1, acc.2 + kc.2 * tmax kc.1)
        else (acc.1 + kc.2 * tmax kc.1, acc.2 + kc.2 * tmin kc.1)) acc).1 ≤
      (coeffs.foldl (fun acc kc =>
        if 0 ≤ kc.2 then (acc.1 + kc.2 * tmin kc.1, acc.2 + kc.2 * tmax kc.1)
        else (acc.1 + kc.2 * tmax kc.1, acc.2 + kc.2 * tmin kc.1)) acc).2 by
    exact H (0, 0) (le_refl 0)
  induction coeffs with
  | nil => intro acc hacc; exact hacc
  | cons kc t ih =>
    intro acc hacc
    simp only [List.foldl_cons]
    by_cases hc : 0 ≤ kc.2
    · rw [if_pos hc]
      exact ih _ (by
        have := mul_le_mul_of_nonneg_left (h kc.1) hc
        simp only
        linarith)
    · rw [if_neg hc]
      exact ih _ (by
        have := mul_le_mul_of_nonpos_left (h kc.1) (le_of_not_le hc)
        simp only
        linarith)

theorem one_le_mainPad (lo hi : ℚ) : 1 ≤ mainPad lo hi := le_max_left 1 _

theorem frac_le_mainPad (lo hi : ℚ) : (5 / 100) * (hi - lo) ≤ mainPad lo hi := by
  unfold mainPad
  by_cases h : lo < hi
  · rw [if_pos h]; exact le_max_right 1 _
  · rw [if_neg h]
    have hle : hi - lo ≤ 0 := by linarith [le_of_not_lt h]
    have : (5 / 100 : ℚ) * (hi - lo) ≤ 0 := by nlinarith
    calc (5 / 100 : ℚ) * (hi - lo) ≤ 0 := this
      _ ≤ 1 := by norm_num
      _ ≤ max 1 1 := le_max_left 1 1

theorem tenth_le_rawPad (lo hi : ℚ) : 1 / 10 ≤ rawPad lo hi := le_max_left _ _

theorem frac_le_rawPad (lo hi : ℚ) : (5 / 100) * (hi - lo) ≤ rawPad lo hi := by
  unfold rawPad
  by_cases h : lo < hi
  · rw [if_pos h]; exact le_max_right _ _
  · rw [if_neg h]
    have hle : hi - lo ≤ 0 := by linarith [le_of_not_lt h]
    have : (5 / 100 : ℚ) * (hi - lo) ≤ 0 := by nlinarith
    calc (5 / 100 : ℚ) * (hi - lo) ≤ 0 := this
      _ ≤ 1 / 10 := by norm_num
      _ ≤ max (1 / 10) (1 / 10) := le_max_left _ _

theorem mainPad_pos (lo hi : ℚ) : 0 < mainPad lo hi :=
  lt_of_lt_of_le one_pos (one_le_mainPad lo hi)

theorem rawPad_pos (lo hi : ℚ) : 0 < rawPad lo hi := by
  have := tenth_le_rawPad lo hi
  linarith

/- ================================================================
   C9: range estimator padding.
   ================================================================ -/

/-- C9 counterexample input: a sub-catalog of all-zero parts. -/
def pZero : Part := ⟨"p", zeroStats⟩

def tZero1 : Part := ⟨"ta", zeroStats⟩

def tZero2 : Part := ⟨"tb", zeroStats⟩

/-- C9: the claim states that *both* estimators pad each end by at least
1 unit or 5 % of the span (whichever applies).  On an all-zero selected
sub-catalog the raw-stat estimator pads by exactly 0.1, which is less
than the claimed minimum of 1 unit while 5 % of the (zero) span is 0:
the claim is false for `estimate_raw_stat_ranges`. -/
theorem c9_padding_counterexample :
    (estimateRawStatRanges [pZero] [pZero] [pZero] [pZero] [tZero1, tZero2]
        ["Speed"]).map (fun f => f "Speed") = .ok (some (-(1 / 10 : ℚ), (1 / 10 : ℚ))) ∧
    rawPad 0 0 = 1 / 10 ∧
    ¬ max 1 ((5 / 100) * ((0 : ℚ) - 0)) ≤ rawPad 0 0 := by
  refine ⟨by decide, by decide, ?_⟩
  intro h
  have h1 : max 1 ((5 / 100) * ((0 : ℚ) - 0)) = 1 := by norm_num
  rw [h1] at h
  have : rawPad 0 0 = 1 / 10 := by decide
  rw [this] at h
  norm_num at h

/-- C9 amended: the main-score estimator pads each end by at least
`max 1 (5 % of span)`; the raw-stat estimator pads each end by at least
`max 0.1 (5 % of span)`; in both cases the returned interval is strictly
non-degenerate, and the estimators return exactly these padded
intervals on success. -/
theorem c9_padding_amended (dfE dfX dfS dfG dfT : List Part)
    (tb : (String → ℚ) × (String → ℚ)) (htb : trinketPairBounds dfT = .ok tb)
    (keys : List String) :
    (∀ coeffs : List (String × ℚ),
      (1 ≤ mainPad (mainLoHi dfE dfX dfS dfG tb coeffs).1 (mainLoHi dfE dfX dfS dfG tb coeffs).2 ∧
       (5 / 100) * ((mainLoHi dfE dfX dfS dfG tb coeffs).2 - (mainLoHi dfE dfX dfS dfG tb coeffs).1) ≤
         mainPad (mainLoHi dfE dfX dfS dfG tb coeffs).1 (mainLoHi dfE dfX dfS dfG tb coeffs).2) ∧
      (mainRangeOf dfE dfX dfS dfG tb coeffs).1 < (mainRangeOf dfE dfX dfS dfG tb coeffs).2) ∧
    (∀ k : String,
      (1 / 10 ≤ rawPad (rawLoHi dfE dfX dfS dfG tb k).1 (rawLoHi dfE dfX dfS dfG tb k).2 ∧
       (5 / 100) * ((rawLoHi dfE dfX dfS dfG tb k).2 - (rawLoHi dfE dfX dfS dfG tb k).1) ≤
         rawPad (rawLoHi dfE dfX dfS dfG tb k).1 (rawLoHi dfE dfX dfS dfG tb k).2) ∧
      (rawRangeOf dfE dfX dfS dfG tb k).1 < (rawRangeOf dfE dfX dfS dfG tb k).2) ∧
    (∀ mr, estimateMainScoreRanges dfE dfX dfS dfG dfT = .ok mr →
      ∀ k ∈ MAIN_SCORES, ∃ coeffs, mr k = mainRangeOf dfE dfX dfS dfG tb coeffs) ∧
    (∀ rr, estimateRawStatRanges dfE dfX dfS dfG dfT keys = .ok rr →
      ∀ k, keys.contains k = true → rr k = some (rawRangeOf dfE dfX dfS dfG tb k)) := by
  have htble : ∀ k, tb.1 k ≤ tb.2 k := trinketPairBounds_le dfT tb htb
  have htot := totalMin_le_totalMax dfE dfX dfS dfG tb htble
  refine ⟨?_, ?_, ?_, ?_⟩
  · intro coeffs
    have hlh : (mainLoHi dfE dfX dfS dfG tb coeffs).1 ≤ (mainLoHi dfE dfX dfS dfG tb coeffs).2 :=
      linMinmax_le _ _ coeffs htot
    refine ⟨⟨one_le_mainPad _ _, frac_le_mainPad _ _⟩, ?_⟩
    have hp := mainPad_pos (mainLoHi dfE dfX dfS dfG tb coeffs).1 (mainLoHi dfE dfX dfS dfG tb coeffs).2
    simp only [mainRangeOf]
    linarith
  · intro k
    have hlh : (rawLoHi dfE dfX dfS dfG tb k).1 ≤ (rawLoHi dfE dfX dfS dfG tb k).2 := htot k
    refine ⟨⟨tenth_le_rawPad _ _, frac_le_rawPad _ _⟩, ?_⟩
    have hp := rawPad_pos (rawLoHi dfE dfX dfS dfG tb k).1 (rawLoHi dfE dfX dfS dfG tb k).2
    simp only [rawRangeOf]
    linarith
  · intro mr hmr k hk
    unfold estimateMainScoreRanges at hmr
    rw [htb] at hmr
    simp only [Except.bind, bind, pure, Except.pure] at hmr
    have hmr' := Except.ok.inj hmr
    subst hmr'
    simp only [MAIN_SCORES, List.mem_cons, List.mem_singleton] at hk
    rcases hk with h | h | h | h | h
    · subst h; exact ⟨RACE_COEFFS, by simp⟩
    · subst h; exact ⟨COIN_COEFFS, by simp [COIN_COEFFS]⟩
    · subst h; exact ⟨DRIFT_COEFFS, by simp [DRIFT_COEFFS]⟩
    · subst h; exact ⟨COMBAT_COEFFS, by simp [COMBAT_COEFFS]⟩
    · exact absurd h (by simp)
  · intro rr hrr k hk
    unfold estimateRawStatRanges at hrr
    rw [htb] at hrr
    simp only [Except.bind, bind, pure, Except.pure] at hrr
    have hrr' := Except.ok.inj hrr
    subst hrr'
    have hmem : k ∈ keys := List.elem_iff.mp hk
    simp [hk, hmem]

def tbZero : (String → ℚ) × (String → ℚ) :=
  match trinketPairBounds [tZero1, tZero2] with
  | .ok tb => tb
  | .error _ => (fun _ => 0, fun _ => 0)

/-- C9 witness: the amended padding law evaluated on the all-zero
sub-catalog. -/
theorem c9_padding_amended_witness :
    (mainRangeOf [pZero] [pZero] [pZero] [pZero] tbZero RACE_COEFFS).1 <
      (mainRangeOf [pZero] [pZero] [pZero] [pZero] tbZero RACE_COEFFS).2 ∧
    (rawRangeOf [pZero] [pZero] [pZero] [pZero] tbZero "Speed").1 <
      (rawRangeOf [pZero] [pZero] [pZero] [pZero] tbZero "Speed").2 :=
  ⟨((c9_padding_amended [pZero] [pZero] [pZero] [pZero] [tZero1, tZero2] tbZero rfl
      ["Speed"]).1 RACE_COEFFS).2,
   (((c9_padding_amended [pZero] [pZero] [pZero] [pZero] [tZero1, tZero2] tbZero rfl
      ["Speed"]).2.1 "Speed")).2⟩

/- ================================================================
   C6: the engine mutates the caller's config.
   ================================================================ -/

/-- C6 counterexample: `optimise_builds` assigns the default main
weights into a config whose `weights_main` is an empty mapping (falsy),
so after the call the caller's config differs from the one supplied. -/
theorem c6_config_mutation_counterexample :
    configAfterRun { cfgW with weights_main := some [] } ≠
      { cfgW with weights_main := some [] } := by decide

/-- C6 amended: `optimise_builds` leaves the config unchanged *provided*
`weights_main` is non-falsy (neither absent nor empty) and none of
`weights_raw`, `constraints_main`, `constraints_raw` is `None`;
otherwise those fields are overwritten with defaults. -/
theorem c6_config_mutation_amended (cfg : OptimiseConfig)
    (hwm : wmFalsy cfg.weights_main = false)
    (hwr : cfg.weights_raw ≠ none)
    (hcm : cfg.constraints_main ≠ none)
    (hcr : cfg.constraints_raw ≠ none) :
    configAfterRun cfg = cfg := by
  obtain ⟨wr, hwr'⟩ := Option.ne_none_iff_exists'.mp hwr
  obtain ⟨cm, hcm'⟩ := Option.ne_none_iff_exists'.mp hcm
  obtain ⟨cr, hcr'⟩ := Option.ne_none_iff_exists'.mp hcr
  simp only [configAfterRun, hwm, hwr', hcm', hcr', Bool.false_eq_true, if_false,
    Option.getD_some]
  cases cfg
  simp_all

/-- C6 witness: a concrete fully-populated config is untouched. -/
theorem c6_config_mutation_amended_witness :
    configAfterRun { cfgW with constraints_main := some [], constraints_raw := some [] } =
      { cfgW with constraints_main := some [], constraints_raw := some [] } :=
  c6_config_mutation_amended _ (by decide) (by decide) (by decide) (by decide)

/- ================================================================
   C8: numeric degeneracy of normalisation.
   ================================================================ -/

/-- C8: when a score's catalog-wide theoretical maximum is zero or
negative, the 0-100 display normalisation emits a defined 0 for every
row (never a division), and the engine's min-max objective
normalisation returns 0 whenever the estimated range is within the
tolerance of degeneracy. -/
theorem c8_normalisation_degeneracy (cat : Catalog) (rowScores : List (String → ℚ))
    (k : String) (hk : computeGlobalScoreMaxima cat k ≤ 0) :
    (∀ entry ∈ normalizeScoresGlobal cat rowScores, ∀ cell ∈ entry,
      cell.1 = k → (cell.2).2.2 = 0) ∧
    (∀ x lo hi : ℚ, hi - lo ≤ 1 / 1000000000 → minmaxNorm x lo hi = 0) := by
  constructor
  · intro entry hentry cell hcell hck
    simp only [normalizeScoresGlobal, List.mem_map] at hentry
    obtain ⟨rs, _, hrs⟩ := hentry
    subst hrs
    simp only [List.mem_map] at hcell
    obtain ⟨k', _, hk'⟩ := hcell
    subst hk'
    simp only at hck
    subst hck
    simp only [normCell]
    rw [if_neg (not_lt.mpr hk)]
  · intro x lo hi h
    simp only [minmaxNorm]
    rw [if_pos h]

/-- C8 witness: on the all-zero catalog the race maximum is 0 and the
normalised race figure of a nonzero row is 0; a degenerate estimated
range also normalises to 0. -/
theorem c8_normalisation_degeneracy_witness :
    (∀ entry ∈ normalizeScoresGlobal ⟨[pZero], [pZero], [pZero], [pZero], [tZero1, tZero2]⟩
        [fun _ => 5], ∀ cell ∈ entry, cell.1 = "race" → (cell.2).2.2 = 0) ∧
    minmaxNorm 7 3 3 = 0 := by
  have h := c8_normalisation_degeneracy ⟨[pZero], [pZero], [pZero], [pZero], [tZero1, tZero2]⟩
    [fun _ => 5] "race" (by decide)
  exact ⟨h.1, h.2 7 3 3 (by norm_num)⟩

/- ================================================================
   C4: validation order (code bug).
   ================================================================ -/

def invOneTrinket : Inventory := ⟨["e1"], ["x1"], ["s1"], ["g1"], ["t1"]⟩

/-- C4: the claim says the insufficient-trinkets validation error is
raised before any enumeration regardless of `normalize_objective`.  In
the code the check sits *after* range estimation: with exactly one
selected trinket and normalisation enabled, `_trinket_pair_minmax`
performs a zero-size reduction over the (already enumerated, empty)
trinket-pair list and raises a generic numpy error instead of the
distinct validation error; with normalisation off the distinct error is
raised.  This contradicts the spec's stated fail-fast contract. -/
theorem c4_validation_order_bug :
    optimise catW invOneTrinket { cfgW with normalize_objective := true } =
      .error .emptyReduction ∧
    optimise catW invOneTrinket { cfgW with normalize_objective := false } =
      .error .insufficientTrinkets ∧
    OptError.emptyReduction ≠ OptError.insufficientTrinkets := by
  refine ⟨by decide, by decide, by decide⟩

/- ================================================================
   Lemmas about the diversification pass.
   ================================================================ -/

theorem scanPick_cons (df : List Row) (topn : ℕ) (q : List (String × Option ℤ)) (curMin : ℤ)
    (i : ℕ) (rest : List ℕ) (sel : List ℕ) (cnt : Counts) (p : Bool) :
    scanPick df topn q curMin (i :: rest) (sel, cnt, p) =
    if i ∈ sel then scanPick df topn q curMin rest (sel, cnt, p)
    else if !(okQuota q cnt (df.getD i dRow)) then scanPick df topn q curMin rest (sel, cnt, p)
    else if sel.all (fun j => decide (curMin ≤ (hammingParts (df.getD i dRow) (df.getD j dRow) : ℤ))) then
      (if topn ≤ (sel ++ [i]).length then
        ((sel ++ [i]), bumpCounts cnt (df.getD i dRow), true)
       else scanPick df topn q curMin rest ((sel ++ [i]), bumpCounts cnt (df.getD i dRow), true))
    else scanPick df topn q curMin rest (sel, cnt, p) := rfl

/-- Core behaviour of one scan: the selection only grows at the end, the
picked flag is monotone, a scan that reports no pick leaves the
selection untouched, a successful pick strictly grows it, the size
bound `topn` is respected, and well-formedness (no duplicate indices,
index bounds) is preserved. -/
theorem scanPick_spec (df : List Row) (topn : ℕ) (q : List (String × Option ℤ)) (curMin : ℤ)
    (idxs : List ℕ) : ∀ (sel : List ℕ) (cnt : Counts) (p : Bool),
    (∃ ext, (scanPick df topn q curMin idxs (sel, cnt, p)).1 = sel ++ ext) ∧
    (p = true → (scanPick df topn q curMin idxs (sel, cnt, p)).2.2 = true) ∧
    ((scanPick df topn q curMin idxs (sel, cnt, p)).2.2 = false →
      (scanPick df topn q curMin idxs (sel, cnt, p)).1 = sel) ∧
    (p = false → (scanPick df topn q curMin idxs (sel, cnt, p)).2.2 = true →
      sel.length < (scanPick df topn q curMin idxs (sel, cnt, p)).1.length) ∧
    (sel.length < topn → (scanPick df topn q curMin idxs (sel, cnt, p)).1.length ≤ topn) ∧
    (sel.Nodup → (scanPick df topn q curMin idxs (sel, cnt, p)).1.Nodup) ∧
    (∀ n, (∀ j ∈ sel, j < n) → (∀ j ∈ idxs, j < n) →
      ∀ j ∈ (scanPick df topn q curMin idxs (sel, cnt, p)).1, j < n) := by
  induction idxs with
  | nil =>
    intro sel cnt p
    refine ⟨⟨[], (List.append_nil sel).symm⟩, fun h => h, fun _ => rfl, ?_, fun h => le_of_lt h,
      fun h => h, fun n hs _ => hs⟩
    intro hp h
    simp [scanPick, hp] at h
  | cons i rest ih =>
    intro sel cnt p
    rw [scanPick_cons]
    by_cases h1 : i ∈ sel
    · rw [if_pos h1]
      obtain ⟨hpre, hmono, hfalse, hgrow, hle, hnd, hval⟩ := ih sel cnt p
      exact ⟨hpre, hmono, hfalse, hgrow, hle, hnd,
        fun n hs hi j hj => hval n hs (fun j hj => hi j (List.mem_cons_of_mem i hj)) j hj⟩
    · rw [if_neg h1]
      by_cases h2 : (!(okQuota q cnt (df.getD i dRow))) = true
      · rw [if_pos h2]
        obtain ⟨hpre, hmono, hfalse, hgrow, hle, hnd, hval⟩ := ih sel cnt p
        exact ⟨hpre, hmono, hfalse, hgrow, hle, hnd,
          fun n hs hi j hj => hval n hs (fun j hj => hi j (List.mem_cons_of_mem i hj)) j hj⟩
      · rw [if_neg h2]
        by_cases h3 : sel.all
            (fun j => decide (curMin ≤ (hammingParts (df.getD i dRow) (df.getD j dRow) : ℤ))) = true
        · rw [if_pos h3]
          by_cases h4 : topn ≤ (sel ++ [i]).length
          · rw [if_pos h4]
            refine ⟨⟨[i], rfl⟩, fun _ => rfl, fun h => absurd h (by simp), ?_, ?_, ?_, ?_⟩
            · intro _ _; simp
            · intro hlt
              simp only [List.length_append, List.length_singleton]
              omega
            · intro hsnd
              rw [← List.concat_eq_append]
              exact hsnd.concat h1
            · intro n hs hi j hj
              rcases List.mem_append.mp hj with h | h
              · exact hs j h
              · rw [List.mem_singleton.mp h]; exact hi i (List.mem_cons_self i rest)
          · rw [if_neg h4]
            obtain ⟨hpre, hmono, hfalse, hgrow, hle, hnd, hval⟩ :=
              ih (sel ++ [i]) (bumpCounts cnt (df.getD i dRow)) true
            refine ⟨?_, fun _ => hmono rfl, ?_, ?_, ?_, ?_, ?_⟩
            · obtain ⟨ext, hext⟩ := hpre
              exact ⟨[i] ++ ext, by rw [hext, List.append_assoc]⟩
            · intro h
              have hh := hmono rfl
              rw [h] at hh
              exact absurd hh Bool.false_ne_true
            · intro _ _
              obtain ⟨ext, hext⟩ := hpre
              rw [hext]
              simp only [List.length_append, List.length_singleton]
              omega
            · intro _
              apply hle
              simp only [List.length_append, List.length_singleton] at h4 ⊢
              omega
            · intro hsnd
              apply hnd
              rw [← List.concat_eq_append]
              exact hsnd.concat h1
            · intro n hs hi j hj
              apply hval n _ (fun j hj => hi j (List.mem_cons_of_mem i hj)) j hj
              intro j hj
              rcases List.mem_append.mp hj with h | h
              · exact hs j h
              · rw [List.mem_singleton.mp h]; exact hi i (List.mem_cons_self i rest)
        · rw [if_neg h3]
          obtain ⟨hpre, hmono, hfalse, hgrow, hle, hnd, hval⟩ := ih sel cnt p
          exact ⟨hpre, hmono, hfalse, hgrow, hle, hnd,
            fun n hs hi j hj => hval n hs (fun j hj => hi j (List.mem_cons_of_mem i hj)) j hj⟩

/-- A scan at a non-positive threshold with no quota picks something as
soon as any unselected index remains. -/
theorem scanPick_picks (df : List Row) (topn : ℕ) (curMin : ℤ) (hcm : curMin ≤ 0)
    (idxs : List ℕ) : ∀ (sel : List ℕ) (cnt : Counts),
    (∃ m ∈ idxs, m ∉ sel) →
    (scanPick df topn [] curMin idxs (sel, cnt, false)).2.2 = true := by
  induction idxs with
  | nil =>
    intro sel cnt h
    obtain ⟨m, hm, _⟩ := h
    exact absurd hm (List.not_mem_nil m)
  | cons i rest ih =>
    intro sel cnt h
    rw [scanPick_cons]
    by_cases h1 : i ∈ sel
    · rw [if_pos h1]
      apply ih
      obtain ⟨m, hm, hms⟩ := h
      refine ⟨m, ?_, hms⟩
      rcases List.mem_cons.mp hm with h' | h'
      · exact absurd (h' ▸ h1) hms
      · exact h'
    · rw [if_neg h1]
      have hq : okQuota [] cnt (df.getD i dRow) = true := rfl
      rw [hq]
      simp only [Bool.not_true, Bool.false_eq_true, if_false]
      have h3 : sel.all
          (fun j => decide (curMin ≤ (hammingParts (df.getD i dRow) (df.getD j dRow) : ℤ))) = true := by
        rw [List.all_eq_true]
        intro j _
        rw [decide_eq_true_eq]
        exact le_trans hcm (Int.natCast_nonneg _)
      rw [if_pos h3]
      by_cases h4 : topn ≤ (sel ++ [i]).length
      · rw [if_pos h4]
      · rw [if_neg h4]
        exact ((scanPick_spec df topn [] curMin rest _ _ true).2.1) rfl

theorem fillScan_cons (df : List Row) (topn : ℕ) (q : List (String × Option ℤ))
    (i : ℕ) (rest : List ℕ) (sel : List ℕ) (cnt : Counts) :
    fillScan df topn q (i :: rest) (sel, cnt) =
    if i ∈ sel then fillScan df topn q rest (sel, cnt)
    else if !(okQuota q cnt (df.getD i dRow)) then fillScan df topn q rest (sel, cnt)
    else if topn ≤ (sel ++ [i]).length then ((sel ++ [i]), bumpCounts cnt (df.getD i dRow))
    else fillScan df topn q rest ((sel ++ [i]), bumpCounts cnt (df.getD i dRow)) := rfl

theorem fillScan_spec (df : List Row) (topn : ℕ) (q : List (String × Option ℤ))
    (idxs : List ℕ) : ∀ (sel : List ℕ) (cnt : Counts),
    (∃ ext, (fillScan df topn q idxs (sel, cnt)).1 = sel ++ ext) ∧
    (∀ n, (∀ j ∈ sel, j < n) → (∀ j ∈ idxs, j < n) →
      ∀ j ∈ (fillScan df topn q idxs (sel, cnt)).1, j < n) := by
  induction idxs with
  | nil => exact fun sel cnt => ⟨⟨[], (List.append_nil sel).symm⟩, fun n hs _ => hs⟩
  | cons i rest ih =>
    intro sel cnt
    rw [fillScan_cons]
    by_cases h1 : i ∈ sel
    · rw [if_pos h1]
      obtain ⟨hpre, hval⟩ := ih sel cnt
      exact ⟨hpre, fun n hs hi j hj => hval n hs (fun j hj => hi j (List.mem_cons_of_mem i hj)) j hj⟩
    · rw [if_neg h1]
      by_cases h2 : (!(okQuota q cnt (df.getD i dRow))) = true
      · rw [if_pos h2]
        obtain ⟨hpre, hval⟩ := ih sel cnt
        exact ⟨hpre, fun n hs hi j hj => hval n hs (fun j hj => hi j (List.mem_cons_of_mem i hj)) j hj⟩
      · rw [if_neg h2]
        by_cases h4 : topn ≤ (sel ++ [i]).length
        · rw [if_pos h4]
          refine ⟨⟨[i], rfl⟩, ?_⟩
          intro n hs hi j hj
          rcases List.mem_append.mp hj with h | h
          · exact hs j h
          · rw [List.mem_singleton.mp h]; exact hi i (List.mem_cons_self i rest)
        · rw [if_neg h4]
          obtain ⟨hpre, hval⟩ := ih (sel ++ [i]) (bumpCounts cnt (df.getD i dRow))
          refine ⟨?_, ?_⟩
          · obtain ⟨ext, hext⟩ := hpre
            exact ⟨[i] ++ ext, by rw [hext, List.append_assoc]⟩
          · intro n hs hi j hj
            apply hval n _ (fun j hj => hi j (List.mem_cons_of_mem i hj)) j hj
            intro j hj
            rcases List.mem_append.mp hj with h | h
            · exact hs j h
            · rw [List.mem_singleton.mp h]; exact hi i (List.mem_cons_self i rest)

theorem scanIdx_lt (df : List Row) : ∀ j ∈ scanIdx df, j < df.length := by
  intro j hj
  rw [scanIdx, List.mem_range'] at hj
  obtain ⟨i, hi, hij⟩ := hj
  omega

theorem mem_scanIdx (df : List Row) (m : ℕ) (h1 : 1 ≤ m) (h2 : m < df.length) :
    m ∈ scanIdx df := by
  rw [scanIdx, List.mem_range']
  exact ⟨m - 1, by omega, by omega⟩

theorem diversifyLoop_cons (df : List Row) (topn : ℕ) (q : List (String × Option ℤ))
    (fuel : ℕ) (curMin : ℤ) (sel : List ℕ) (cnt : Counts) :
    diversifyLoop df topn q (fuel + 1) curMin sel cnt =
    if sel.length < topn ∧ sel.length < df.length then
      if (scanPick df topn q curMin (scanIdx df) (sel, cnt, false)).2.2 then
        diversifyLoop df topn q fuel curMin
          (scanPick df topn q curMin (scanIdx df) (sel, cnt, false)).1
          (scanPick df topn q curMin (scanIdx df) (sel, cnt, false)).2.1
      else if 0 < curMin then diversifyLoop df topn q fuel (curMin - 1) sel cnt
      else (fillScan df topn q (scanIdx df) (sel, cnt)).1
    else sel := rfl

theorem diversifyLoop_prefix (df : List Row) (topn : ℕ) (q : List (String × Option ℤ)) :
    ∀ (fuel : ℕ) (curMin : ℤ) (sel : List ℕ) (cnt : Counts),
    ∃ ext, diversifyLoop df topn q fuel curMin sel cnt = sel ++ ext := by
  intro fuel
  induction fuel with
  | zero => exact fun curMin sel cnt => ⟨[], (List.append_nil sel).symm⟩
  | succ fuel ih =>
    intro curMin sel cnt
    rw [diversifyLoop_cons]
    by_cases hc : sel.length < topn ∧ sel.length < df.length
    · rw [if_pos hc]
      by_cases hr : (scanPick df topn q curMin (scanIdx df) (sel, cnt, false)).2.2 = true
      · rw [if_pos hr]
        obtain ⟨e1, he1⟩ := (scanPick_spec df topn q curMin (scanIdx df) sel cnt false).1
        obtain ⟨e2, he2⟩ := ih curMin _ _
        exact ⟨e1 ++ e2, by rw [he2, he1, List.append_assoc]⟩
      · rw [if_neg hr]
        by_cases hm : 0 < curMin
        · rw [if_pos hm]; exact ih _ _ _
        · rw [if_neg hm]
          exact (fillScan_spec df topn q (scanIdx df) sel cnt).1
    · rw [if_neg hc]; exact ⟨[], (List.append_nil sel).symm⟩

theorem diversifyLoop_valid (df : List Row) (topn : ℕ) (q : List (String × Option ℤ)) :
    ∀ (fuel : ℕ) (curMin : ℤ) (sel : List ℕ) (cnt : Counts),
    (∀ j ∈ sel, j < df.length) →
    ∀ j ∈ diversifyLoop df topn q fuel curMin sel cnt, j < df.length := by
  intro fuel
  induction fuel with
  | zero => exact fun curMin sel cnt h => h
  | succ fuel ih =>
    intro curMin sel cnt hval
    rw [diversifyLoop_cons]
    by_cases hc : sel.length < topn ∧ sel.length < df.length
    · rw [if_pos hc]
      by_cases hr : (scanPick df topn q curMin (scanIdx df) (sel, cnt, false)).2.2 = true
      · rw [if_pos hr]
        apply ih
        exact (scanPick_spec df topn q curMin (scanIdx df) sel cnt false).2.2.2.2.2.2
          df.length hval (scanIdx_lt df)
      · rw [if_neg hr]
        by_cases hm : 0 < curMin
        · rw [if_pos hm]; exact ih _ _ _ hval
        · rw [if_neg hm]
          exact (fillScan_spec df topn q (scanIdx df) sel cnt).2 df.length hval (scanIdx_lt df)
    · rw [if_neg hc]; exact hval

theorem nodup_lt_length (sel : List ℕ) (n : ℕ) (hnd : sel.Nodup)
    (hval : ∀ j ∈ sel, j < n) : sel.length ≤ n := by
  have hsub : sel.toFinset ⊆ Finset.range n := by
    intro j hj
    rw [Finset.mem_range]
    exact hval j (List.mem_toFinset.mp hj)
  have h1 : sel.toFinset.card = sel.length := List.toFinset_card_of_nodup hnd
  have h2 := Finset.card_le_card hsub
  rw [Finset.card_range] at h2
  omega

theorem exists_unselected (sel : List ℕ) (n : ℕ) (hnd : sel.Nodup)
    (_hval : ∀ j ∈ sel, j < n) (hlt : sel.length < n) : ∃ m, m < n ∧ m ∉ sel := by
  by_contra h
  push_neg at h
  have hsub : Finset.range n ⊆ sel.toFinset := by
    intro m hm
    rw [Finset.mem_range] at hm
    exact List.mem_toFinset.mpr (h m hm)
  have h1 : sel.toFinset.card = sel.length := List.toFinset_card_of_nodup hnd
  have h2 := Finset.card_le_card hsub
  rw [Finset.card_range] at h2
  omega

/-- The relaxation loop with no quota fills the selection up to
`min topn df.length` (given enough fuel and a well-formed state). -/
theorem diversifyLoop_len (df : List Row) (topn : ℕ) :
    ∀ (fuel : ℕ) (curMin : ℤ) (sel : List ℕ) (cnt : Counts),
    (topn - sel.length) + curMin.toNat < fuel →
    sel.Nodup → (∀ j ∈ sel, j < df.length) → sel.length ≤ topn → 0 ∈ sel →
    (diversifyLoop df topn [] fuel curMin sel cnt).length = min topn df.length := by
  intro fuel
  induction fuel with
  | zero => intro curMin sel cnt hfuel; omega
  | succ fuel ih =>
    intro curMin sel cnt hfuel hnd hval hle h0
    rw [diversifyLoop_cons]
    by_cases hc : sel.length < topn ∧ sel.length < df.length
    · rw [if_pos hc]
      by_cases hr : (scanPick df topn [] curMin (scanIdx df) (sel, cnt, false)).2.2 = true
      · rw [if_pos hr]
        obtain ⟨hpre, _, _, hgrow, hlen, hndp, hvalp⟩ :=
          scanPick_spec df topn [] curMin (scanIdx df) sel cnt false
        have hg := hgrow rfl hr
        apply ih
        · omega
        · exact hndp hnd
        · exact hvalp df.length hval (scanIdx_lt df)
        · exact hlen hc.1
        · obtain ⟨ext, hext⟩ := hpre
          rw [hext]
          exact List.mem_append_left ext h0
      · rw [if_neg hr]
        by_cases hm : 0 < curMin
        · rw [if_pos hm]
          apply ih _ _ _ _ hnd hval hle h0
          omega
        · rw [if_neg hm]
          exfalso
          obtain ⟨m, hmn, hms⟩ := exists_unselected sel df.length hnd hval hc.2
          have hm1 : 1 ≤ m := by
            rcases Nat.eq_zero_or_pos m with h | h
            · exact absurd (h ▸ h0) (h ▸ hms)
            · exact h
          exact absurd (scanPick_picks df topn curMin (by omega) (scanIdx df) sel cnt
            ⟨m, mem_scanIdx df m hm1 hmn, hms⟩) hr
    · rw [if_neg hc]
      have := nodup_lt_length sel df.length hnd hval
      omega

theorem sortDescRows_perm (l : List Row) : (sortDescRows l).Perm l :=
  List.perm_insertionSort _ l

theorem diversifyByParts_subset (df : List Row) (topn : ℕ) (minDiff : ℤ)
    (q : List (String × Option ℤ)) :
    ∀ r ∈ diversifyByParts df topn minDiff q, r ∈ df := by
  intro r hr
  unfold diversifyByParts at hr
  cases h : sortDescRows df with
  | nil => rw [h] at hr; exact absurd hr (List.not_mem_nil r)
  | cons r0 rest =>
    rw [h] at hr
    simp only [List.mem_map] at hr
    obtain ⟨i, hi, hri⟩ := hr
    have hval : ∀ j ∈ diversifyLoop (r0 :: rest) topn q (topn + minDiff.toNat + 1) minDiff [0]
        (bumpCounts zeroCounts r0), j < (r0 :: rest).length := by
      apply diversifyLoop_valid
      intro j hj
      rw [List.mem_singleton.mp hj]
      simp
    have hlt := hval i hi
    have hmem : r ∈ (r0 :: rest) := by
      rw [← hri, List.getD_eq_getElem _ _ hlt]
      exact List.getElem_mem hlt
    have hperm := sortDescRows_perm df
    rw [h] at hperm
    exact hperm.subset hmem

theorem diversifyByParts_head (df : List Row) (topn : ℕ) (minDiff : ℤ)
    (q : List (String × Option ℤ)) (r0 : Row) (rest : List Row)
    (h : sortDescRows df = r0 :: rest) :
    (diversifyByParts df topn minDiff q).head? = some r0 := by
  unfold diversifyByParts
  rw [h]
  obtain ⟨ext, hext⟩ := diversifyLoop_prefix (r0 :: rest) topn q (topn + minDiff.toNat + 1)
    minDiff [0] (bumpCounts zeroCounts r0)
  simp only [hext]
  rfl

theorem diversifyByParts_len (df : List Row) (topn : ℕ) (minDiff : ℤ) (htop : 1 ≤ topn) :
    (diversifyByParts df topn minDiff []).length = min topn df.length := by
  unfold diversifyByParts
  cases h : sortDescRows df with
  | nil =>
    have := (sortDescRows_perm df).length_eq
    rw [h] at this
    simp [← this]
  | cons r0 rest =>
    have hlen := diversifyLoop_len (r0 :: rest) topn (topn + minDiff.toNat + 1) minDiff [0]
      (bumpCounts zeroCounts r0) (by simp; omega) (List.nodup_singleton 0)
      (by intro j hj; rw [List.mem_singleton.mp hj]; simp) (by simpa using htop)
      (List.mem_singleton_self 0)
    rw [List.length_map, hlen]
    have := (sortDescRows_perm df).length_eq
    rw [h] at this
    rw [this]

/- ================================================================
   Lemmas about per-pair candidate selection and result provenance.
   ================================================================ -/

theorem mem_dedupRowsAux {r : Row} : ∀ (seen : List (List String)) (l : List Row),
    r ∈ dedupRowsAux seen l → r ∈ l := by
  intro seen l
  induction l generalizing seen with
  | nil => simp [dedupRowsAux]
  | cons a t ih =>
    simp only [dedupRowsAux]
    by_cases h : partKey a ∈ seen
    · rw [if_pos h]
      intro hr
      exact List.mem_cons_of_mem a (ih _ hr)
    · rw [if_neg h]
      intro hr
      rcases List.mem_cons.mp hr with h1 | h1
      · rw [h1]; exact List.mem_cons_self a t
      · exact List.mem_cons_of_mem a (ih _ h1)

/-- In a list sorted descending by key, the first `k` entries all have a
non-bottom key as long as at least `k` keys are non-bottom (the `-inf`
overwrite can never promote a masked row into the selected prefix). -/
theorem sorted_take_ne_bot : ∀ {l : List (WithBot ℚ × Row)},
    List.Sorted (fun a b => b.1 ≤ a.1) l →
    ∀ k, k ≤ (l.filter (fun e => decide (e.1 ≠ (⊥ : WithBot ℚ)))).length →
    ∀ e ∈ l.take k, e.1 ≠ ⊥ := by
  intro l
  induction l with
  | nil =>
    intro _ k _ e he
    rw [List.take_nil] at he
    exact absurd he (List.not_mem_nil e)
  | cons a t ih =>
    intro hs k hk e he
    rw [List.sorted_cons] at hs
    cases k with
    | zero => exact absurd he (by simp)
    | succ k =>
      have ha : a.1 ≠ ⊥ := by
        intro hbot
        have hfil : (a :: t).filter (fun e => decide (e.1 ≠ (⊥ : WithBot ℚ))) = [] := by
          rw [List.eq_nil_iff_forall_not_mem]
          intro x hx
          rw [List.mem_filter] at hx
          have hxmem := hx.1
          have hxne := of_decide_eq_true hx.2
          rcases List.mem_cons.mp hxmem with h1 | h1
          · rw [h1] at hxne; exact hxne hbot
          · have := hs.1 x h1
            rw [hbot] at this
            exact hxne (le_bot_iff.mp this)
        rw [hfil] at hk
        exact absurd hk (by simp)
      rw [List.take_succ_cons] at he
      rcases List.mem_cons.mp he with h1 | h1
      · rw [h1]; exact ha
      · apply ih hs.2 k ?_ e h1
        rw [List.filter_cons, if_pos (decide_eq_true ha)] at hk
        simpa using hk

theorem mem_pairIdx (T : ℕ) (a : ℕ × ℕ) : a ∈ pairIdx T ↔ a.1 < a.2 ∧ a.2 < T := by
  obtain ⟨i, j⟩ := a
  simp only [pairIdx, List.mem_flatMap, List.mem_map, List.mem_filter, List.mem_range]
  constructor
  · rintro ⟨i', hi', j', ⟨hj', hij'⟩, heq⟩
    simp only [Prod.mk.injEq] at heq
    exact ⟨heq.1 ▸ heq.2 ▸ of_decide_eq_true hij', heq.2 ▸ hj'⟩
  · rintro ⟨hij, hj⟩
    exact ⟨i, lt_trans hij hj, j, ⟨hj, decide_eq_true hij⟩, rfl⟩

theorem pairCandidates_mem (pass : Stats → Bool) (obj : Stats → ℚ) (topn : ℕ)
    (dfT : List Part) (base : List (Part × Part × Part × Part)) (p : ℕ × ℕ) (r : Row)
    (hr : r ∈ pairCandidates pass obj topn dfT base p) :
    ∃ b ∈ base, pass (buildTotals dfT p b) = true ∧ r = mkRowFor obj dfT p b := by
  unfold pairCandidates at hr
  set entries := base.map (fun b =>
    let t := buildTotals dfT p b
    ((if pass t then ((obj t : ℚ) : WithBot ℚ) else ⊥), mkRowFor obj dfT p b)) with hentries
  by_cases hm : (entries.filter (fun e => decide (e.1 ≠ (⊥ : WithBot ℚ)))).length = 0
  · rw [if_pos hm] at hr
    exact absurd hr (List.not_mem_nil r)
  · rw [if_neg hm] at hr
    obtain ⟨e, he, her⟩ := List.mem_map.mp hr
    haveI instTot : IsTotal (WithBot ℚ × Row) (fun a b => b.1 ≤ a.1) :=
      ⟨fun a b => le_total b.1 a.1⟩
    haveI instTrans : IsTrans (WithBot ℚ × Row) (fun a b => b.1 ≤ a.1) :=
      ⟨fun _ _ _ hab hbc => le_trans hbc hab⟩
    have hsorted := List.sorted_insertionSort (fun (a b : WithBot ℚ × Row) => b.1 ≤ a.1) entries
    have hperm := List.perm_insertionSort (fun (a b : WithBot ℚ × Row) => b.1 ≤ a.1) entries
    have hkey : e.1 ≠ ⊥ := by
      apply sorted_take_ne_bot hsorted _ _ e he
      have hcnt := hperm.countP_eq (fun e => decide (e.1 ≠ (⊥ : WithBot ℚ)))
      rw [List.countP_eq_length_filter, List.countP_eq_length_filter] at hcnt
      rw [hcnt]
      exact min_le_right _ _
    have hee : e ∈ entries := hperm.subset (List.take_subset _ _ he)
    rw [hentries] at hee
    obtain ⟨b, hb, hbe⟩ := List.mem_map.mp hee
    refine ⟨b, hb, ?_, ?_⟩
    · by_contra hpass
      rw [Bool.not_eq_true] at hpass
      rw [← hbe] at hkey
      simp only [hpass, Bool.false_eq_true, if_false] at hkey
      exact hkey rfl
    · rw [← her, ← hbe]

theorem optimiseCore_row_src (dfE dfX dfS dfG dfT : List Part) (topn : ℕ)
    (pass : Stats → Bool) (obj : Stats → ℚ) (diverse : Bool) (minDiff : ℤ)
    (q : List (String × Option ℤ)) (r : Row)
    (hr : r ∈ (optimiseCore dfE dfX dfS dfG dfT topn pass obj diverse minDiff q).rows) :
    ∃ p ∈ pairIdx dfT.length, ∃ b ∈ baseBuilds dfE dfX dfS dfG,
      pass (buildTotals dfT p b) = true ∧ r = mkRowFor obj dfT p b := by
  unfold optimiseCore at hr
  set results := (pairIdx dfT.length).flatMap
    (pairCandidates pass obj topn dfT (baseBuilds dfE dfX dfS dfG)) with hres
  by_cases he : results.isEmpty = true
  · rw [if_pos he] at hr
    exact absurd hr (List.not_mem_nil r)
  · rw [if_neg he] at hr
    simp only at hr
    have hmem : r ∈ sortDescRows results := by
      by_cases hd : diverse = true
      · rw [if_pos hd] at hr
        exact mem_dedupRowsAux [] _ (diversifyByParts_subset _ _ _ _ r hr)
      · rw [if_neg hd] at hr
        exact mem_dedupRowsAux [] _ (List.take_subset _ _ hr)
    have hmem2 : r ∈ results := (sortDescRows_perm results).subset hmem
    rw [hres] at hmem2
    obtain ⟨p, hp, hrp⟩ := List.mem_flatMap.mp hmem2
    exact ⟨p, hp, pairCandidates_mem pass obj topn dfT _ p r hrp⟩

theorem filt_ok (df : List Part) (names : List String) (catName : String) (dfF : List Part)
    (h : filt df names catName = .ok dfF) : dfF = filterSel df names := by
  unfold filt at h
  by_cases he : (filterSel df names).isEmpty = true
  · rw [if_pos he] at h
    exact absurd h (by simp)
  · rw [if_neg he] at h
    exact (Except.ok.inj h).symm

/-- Successful runs come from `optimiseCore` applied to the filtered
category frames, the constraint mask of the effective config, and some
objective function; at least two trinkets were selected. -/
theorem optimise_ok_elim (cat : Catalog) (inv : Inventory) (cfg : OptimiseConfig) (f : Frame)
    (hf : optimise cat inv cfg = .ok f) :
    ∃ obj : Stats → ℚ,
      f = optimiseCore (filterSel cat.engine inv.engine) (filterSel cat.exhaust inv.exhaust)
        (filterSel cat.suspension inv.suspension) (filterSel cat.gearbox inv.gearbox)
        (filterSel cat.trinket inv.trinket) cfg.top_n
        (passes (effCM cfg) (effCR cfg)) obj cfg.diverse cfg.min_diff_parts
        (cfg.per_part_max.getD []) ∧
      2 ≤ (filterSel cat.trinket inv.trinket).length := by
  unfold optimise at hf
  simp only [bind, Except.bind] at hf
  cases hE : filt cat.engine inv.engine "ENGINE" with
  | error e => rw [hE] at hf; exact absurd hf (by simp)
  | ok dfE =>
  rw [hE] at hf
  cases hX : filt cat.exhaust inv.exhaust "EXHAUST" with
  | error e => rw [hX] at hf; exact absurd hf (by simp)
  | ok dfX =>
  rw [hX] at hf
  cases hS : filt cat.suspension inv.suspension "SUSPENSION" with
  | error e => rw [hS] at hf; exact absurd hf (by simp)
  | ok dfS =>
  rw [hS] at hf
  cases hG : filt cat.gearbox inv.gearbox "GEARBOX" with
  | error e => rw [hG] at hf; exact absurd hf (by simp)
  | ok dfG =>
  rw [hG] at hf
  cases hT : filt cat.trinket inv.trinket "TRINKET" with
  | error e => rw [hT] at hf; exact absurd hf (by simp)
  | ok dfT =>
  rw [hT] at hf
  have hE' := filt_ok _ _ _ _ hE
  have hX' := filt_ok _ _ _ _ hX
  have hS' := filt_ok _ _ _ _ hS
  have hG' := filt_ok _ _ _ _ hG
  have hT' := filt_ok _ _ _ _ hT
  subst hE' hX' hS' hG' hT'
  unfold optimisePost at hf
  simp only [bind, Except.bind] at hf
  by_cases hn : cfg.normalize_objective = true
  · rw [if_pos hn] at hf
    cases hm : estimateMainScoreRanges (filterSel cat.engine inv.engine)
        (filterSel cat.exhaust inv.exhaust) (filterSel cat.suspension inv.suspension)
        (filterSel cat.gearbox inv.gearbox) (filterSel cat.trinket inv.trinket) with
    | error e => rw [hm] at hf; exact absurd hf (by simp)
    | ok mr =>
    rw [hm] at hf
    simp only at hf
    by_cases hraw : (((effWR cfg).map Prod.fst).filter
        (fun k => RAW_STAT_KEYS.contains k)).isEmpty = true
    · rw [if_pos hraw] at hf
      simp only [pure, Except.pure] at hf
      by_cases hlt : (filterSel cat.trinket inv.trinket).length < 2
      · rw [if_pos hlt] at hf; exact absurd hf (by simp)
      · rw [if_neg hlt] at hf
        exact ⟨_, (Except.ok.inj hf).symm, by omega⟩
    · rw [if_neg hraw] at hf
      cases hrr : estimateRawStatRanges (filterSel cat.engine inv.engine)
          (filterSel cat.exhaust inv.exhaust) (filterSel cat.suspension inv.suspension)
          (filterSel cat.gearbox inv.gearbox) (filterSel cat.trinket inv.trinket)
          (((effWR cfg).map Prod.fst).filter (fun k => RAW_STAT_KEYS.contains k)) with
      | error e => rw [hrr] at hf; exact absurd hf (by simp)
      | ok rr =>
      rw [hrr] at hf
      simp only [pure, Except.pure] at hf
      by_cases hlt : (filterSel cat.trinket inv.trinket).length < 2
      · rw [if_pos hlt] at hf; exact absurd hf (by simp)
      · rw [if_neg hlt] at hf
        exact ⟨_, (Except.ok.inj hf).symm, by omega⟩
  · rw [if_neg hn] at hf
    simp only [pure, Except.pure] at hf
    by_cases hlt : (filterSel cat.trinket inv.trinket).length < 2
    · rw [if_pos hlt] at hf; exact absurd hf (by simp)
    · rw [if_neg hlt] at hf
      exact ⟨_, (Except.ok.inj hf).symm, by omega⟩

/- ================================================================
   C1: constraint satisfaction.
   ================================================================ -/

/-- Inclusive satisfaction of one `(lo, hi)` constraint (inactive `None`
bounds impose nothing). -/
def boundSat (v : ℚ) (lohi : Option ℚ × Option ℚ) : Prop :=
  (∀ lo, lohi.1 = some lo → lo ≤ v) ∧ (∀ hi, lohi.2 = some hi → v ≤ hi)

theorem boundSat_of_boundOk (v : ℚ) (lohi : Option ℚ × Option ℚ)
    (h : boundOk v lohi = true) : boundSat v lohi := by
  obtain ⟨lo?, hi?⟩ := lohi
  rw [boundOk, Bool.and_eq_true] at h
  obtain ⟨h1, h2⟩ := h
  constructor
  · intro lo hlo
    simp only at hlo
    rw [hlo] at h1
    exact of_decide_eq_true h1
  · intro hi hhi
    simp only at hhi
    rw [hhi] at h2
    exact of_decide_eq_true h2

/-- C1: every row of a successful run arises from a build whose total
stat vector satisfies every active main-score constraint and every
active raw-stat constraint on a canonical key, with both endpoints
inclusive; the row's stored scores are exactly the scores of that total
vector. -/
theorem c1_constraint_satisfaction (cat : Catalog) (inv : Inventory) (cfg : OptimiseConfig)
    (f : Frame) (hf : optimise cat inv cfg = .ok f) (r : Row) (hr : r ∈ f.rows) :
    ∃ t : Stats,
      (r.race = computeScore RACE_COEFFS t ∧ r.coin = computeScore COIN_COEFFS t ∧
       r.drift = computeScore DRIFT_COEFFS t ∧ r.combat = computeScore COMBAT_COEFFS t) ∧
      (∀ kc ∈ effCM cfg, boundSat (mainScore kc.1 t) kc.2) ∧
      (∀ kc ∈ effCR cfg, kc.1 ∈ RAW_STAT_KEYS → boundSat (t kc.1) kc.2) := by
  obtain ⟨obj, hfe, hT⟩ := optimise_ok_elim cat inv cfg f hf
  rw [hfe] at hr
  obtain ⟨p, hp, b, hb, hpass, hrow⟩ := optimiseCore_row_src _ _ _ _ _ _ _ _ _ _ _ r hr
  rw [passes, Bool.and_eq_true] at hpass
  refine ⟨buildTotals (filterSel cat.trinket inv.trinket) p b, ?_, ?_, ?_⟩
  · rw [hrow]; exact ⟨rfl, rfl, rfl, rfl⟩
  · intro kc hkc
    rw [passMain, List.all_eq_true] at hpass
    exact boundSat_of_boundOk _ _ (hpass.1 kc hkc)
  · intro kc hkc hkraw
    have h2 := (List.all_eq_true.mp hpass.2) kc hkc
    rw [decide_eq_true hkraw, Bool.not_true, Bool.false_or] at h2
    exact boundSat_of_boundOk _ _ h2

def cfgC1 : OptimiseConfig :=
  { top_n := 3, weights_main := some [("race", 1)], normalize_objective := false,
    diverse := true, min_diff_parts := 2, per_part_max := none,
    constraints_main := some [("race", (some 30, none))],
    constraints_raw := some [("Speed", (none, some 100))] }

def frameC1 : Frame :=
  match optimise catW invW cfgC1 with
  | .ok f => f
  | .error _ => ⟨[], []⟩

/-- C1 witness: a constrained concrete run and its first result row. -/
theorem c1_constraint_satisfaction_witness :
    ∃ t : Stats,
      ((frameC1.rows.headD dRow).race = computeScore RACE_COEFFS t ∧
       (frameC1.rows.headD dRow).coin = computeScore COIN_COEFFS t ∧
       (frameC1.rows.headD dRow).drift = computeScore DRIFT_COEFFS t ∧
       (frameC1.rows.headD dRow).combat = computeScore COMBAT_COEFFS t) ∧
      (∀ kc ∈ effCM cfgC1, boundSat (mainScore kc.1 t) kc.2) ∧
      (∀ kc ∈ effCR cfgC1, kc.1 ∈ RAW_STAT_KEYS → boundSat (t kc.1) kc.2) :=
  c1_constraint_satisfaction catW invW cfgC1 frameC1 (by decide)
    (frameC1.rows.headD dRow) (by decide)

/- ================================================================
   C3: trinket pair distinctness.
   ================================================================ -/

theorem getD_name_inj (dfT : List Part) (hnd : (dfT.map Part.name).Nodup)
    (i j : ℕ) (hi : i < dfT.length) (hj : j < dfT.length)
    (h : (dfT.getD i dPart).name = (dfT.getD j dPart).name) : i = j := by
  rw [List.getD_eq_getElem _ _ hi, List.getD_eq_getElem _ _ hj] at h
  have hi' : i < (dfT.map Part.name).length := by simpa
  have hj' : j < (dfT.map Part.name).length := by simpa
  have heq : (dfT.map Part.name)[i] = (dfT.map Part.name)[j] := by
    rw [List.getElem_map, List.getElem_map]
    exact h
  exact (List.Nodup.getElem_inj_iff hnd).mp heq

theorem pairIdx_nodup (T : ℕ) : (pairIdx T).Nodup := by
  unfold pairIdx
  rw [List.nodup_flatMap]
  constructor
  · intro i _
    apply List.Nodup.map
    · intro a b hab
      simpa using hab
    · exact (List.nodup_range T).filter _
  · apply List.Pairwise.imp ?_ (List.pairwise_lt_range T)
    intro a b hab
    rw [Function.onFun, List.disjoint_left]
    intro x hxa hxb
    obtain ⟨ja, _, hja⟩ := List.mem_map.mp hxa
    obtain ⟨jb, _, hjb⟩ := List.mem_map.mp hxb
    rw [← hja] at hjb
    simp only [Prod.mk.injEq] at hjb
    exact absurd hjb.1.symm (ne_of_lt hab)

/-- The trinket indices attached to a result row. -/
theorem row_trinket_src (cat : Catalog) (inv : Inventory) (cfg : OptimiseConfig)
    (f : Frame) (hf : optimise cat inv cfg = .ok f) (r : Row) (hr : r ∈ f.rows) :
    ∃ i j : ℕ, i < j ∧ j < (filterSel cat.trinket inv.trinket).length ∧
      r.trinket1 = ((filterSel cat.trinket inv.trinket).getD i dPart).name ∧
      r.trinket2 = ((filterSel cat.trinket inv.trinket).getD j dPart).name := by
  obtain ⟨obj, hfe, hT⟩ := optimise_ok_elim cat inv cfg f hf
  rw [hfe] at hr
  obtain ⟨p, hp, b, hb, hpass, hrow⟩ := optimiseCore_row_src _ _ _ _ _ _ _ _ _ _ _ r hr
  obtain ⟨hlt, hT'⟩ := (mem_pairIdx _ p).mp hp
  exact ⟨p.1, p.2, hlt, hT', by rw [hrow]; rfl, by rw [hrow]; rfl⟩

/-- C3: in a successful run no result build uses the same trinket name
twice, a swapped trinket pair can never appear (in the same or another
row), and the unordered-pair enumeration covers each index pair `i < j`
exactly once. -/
theorem c3_trinket_no_duplication (cat : Catalog) (inv : Inventory) (cfg : OptimiseConfig)
    (f : Frame) (hf : optimise cat inv cfg = .ok f)
    (hnd : ((filterSel cat.trinket inv.trinket).map Part.name).Nodup) :
    (∀ r ∈ f.rows, r.trinket1 ≠ r.trinket2) ∧
    (∀ r ∈ f.rows, ∀ r' ∈ f.rows,
      ¬(r.trinket1 = r'.trinket2 ∧ r.trinket2 = r'.trinket1)) ∧
    (pairIdx (filterSel cat.trinket inv.trinket).length).Nodup ∧
    (∀ i j : ℕ, i < j → j < (filterSel cat.trinket inv.trinket).length →
      (i, j) ∈ pairIdx (filterSel cat.trinket inv.trinket).length) ∧
    (∀ p ∈ pairIdx (filterSel cat.trinket inv.trinket).length, p.1 < p.2) := by
  have hswap : ∀ r ∈ f.rows, ∀ r' ∈ f.rows,
      ¬(r.trinket1 = r'.trinket2 ∧ r.trinket2 = r'.trinket1) := by
    intro r hr r' hr' ⟨h1, h2⟩
    obtain ⟨i, j, hij, hjT, ht1, ht2⟩ := row_trinket_src cat inv cfg f hf r hr
    obtain ⟨i', j', hij', hjT', ht1', ht2'⟩ := row_trinket_src cat inv cfg f hf r' hr'
    have hiT : i < (filterSel cat.trinket inv.trinket).length := lt_trans hij hjT
    have hiT' : i' < (filterSel cat.trinket inv.trinket).length := lt_trans hij' hjT'
    have e1 : i = j' := getD_name_inj _ hnd i j' hiT hjT' (by rw [← ht1, ← ht2']; exact h1)
    have e2 : j = i' := getD_name_inj _ hnd j i' hjT hiT' (by rw [← ht2, ← ht1']; exact h2)
    omega
  refine ⟨?_, hswap, pairIdx_nodup _, ?_, ?_⟩
  · intro r hr hemix
    exact hswap r hr r hr ⟨hemix, hemix.symm⟩
  · intro i j hij hjT
    exact (mem_pairIdx _ (i, j)).mpr ⟨hij, hjT⟩
  · intro p hp
    exact ((mem_pairIdx _ p).mp hp).1

def frameC3 : Frame :=
  match optimise catW invW cfgW with
  | .ok f => f
  | .error _ => ⟨[], []⟩

/-- C3 witness: the unconstrained concrete run. -/
theorem c3_trinket_no_duplication_witness :
    (∀ r ∈ frameC3.rows, r.trinket1 ≠ r.trinket2) ∧
    (∀ r ∈ frameC3.rows, ∀ r' ∈ frameC3.rows,
      ¬(r.trinket1 = r'.trinket2 ∧ r.trinket2 = r'.trinket1)) ∧
    (pairIdx (filterSel catW.trinket invW.trinket).length).Nodup ∧
    (∀ i j : ℕ, i < j → j < (filterSel catW.trinket invW.trinket).length →
      (i, j) ∈ pairIdx (filterSel catW.trinket invW.trinket).length) ∧
    (∀ p ∈ pairIdx (filterSel catW.trinket invW.trinket).length, p.1 < p.2) :=
  c3_trinket_no_duplication catW invW cfgW frameC3 (by decide) (by decide)

/- ================================================================
   C5: degenerate results are not errors.
   ================================================================ -/

theorem trinketPairBounds_ok (dfT : List Part) (h2 : 2 ≤ dfT.length) :
    ∃ tb, trinketPairBounds dfT = .ok tb := by
  cases htb : trinketPairBounds dfT with
  | ok tb => exact ⟨tb, rfl⟩
  | error e =>
    exfalso
    unfold trinketPairBounds at htb
    have hmem : ((0 : ℕ), (1 : ℕ)) ∈ pairIdx dfT.length := (mem_pairIdx _ _).mpr (by omega)
    cases hp : pairIdx dfT.length with
    | nil => rw [hp] at hmem; exact absurd hmem (List.not_mem_nil _)
    | cons p ps =>
      rw [hp] at htb
      exact absurd htb (by simp)

theorem pairCandidates_all_masked (pass : Stats → Bool) (obj : Stats → ℚ) (topn : ℕ)
    (dfT : List Part) (base : List (Part × Part × Part × Part)) (p : ℕ × ℕ)
    (hkill : ∀ b ∈ base, pass (buildTotals dfT p b) = false) :
    pairCandidates pass obj topn dfT base p = [] := by
  unfold pairCandidates
  set entries := base.map (fun b =>
    let t := buildTotals dfT p b
    ((if pass t then ((obj t : ℚ) : WithBot ℚ) else ⊥), mkRowFor obj dfT p b)) with hentries
  have hfil : entries.filter (fun e => decide (e.1 ≠ (⊥ : WithBot ℚ))) = [] := by
    rw [List.eq_nil_iff_forall_not_mem]
    intro e he
    rw [List.mem_filter] at he
    obtain ⟨hee, hne⟩ := he
    rw [hentries] at hee
    obtain ⟨b, hb, hbe⟩ := List.mem_map.mp hee
    have hde := of_decide_eq_true hne
    rw [← hbe] at hde
    simp only [hkill b hb, Bool.false_eq_true, if_false] at hde
    exact hde rfl
  simp only [hfil, List.length_nil]
  simp

theorem optimiseCore_all_masked (dfE dfX dfS dfG dfT : List Part) (topn : ℕ)
    (pass : Stats → Bool) (obj : Stats → ℚ) (diverse : Bool) (minDiff : ℤ)
    (q : List (String × Option ℤ))
    (hkill : ∀ p ∈ pairIdx dfT.length, ∀ b ∈ baseBuilds dfE dfX dfS dfG,
      pass (buildTotals dfT p b) = false) :
    optimiseCore dfE dfX dfS dfG dfT topn pass obj diverse minDiff q = ⟨RESULT_COLS, []⟩ := by
  unfold optimiseCore
  have hres : (pairIdx dfT.length).flatMap
      (pairCandidates pass obj topn dfT (baseBuilds dfE dfX dfS dfG)) = [] := by
    rw [List.eq_nil_iff_forall_not_mem]
    intro r hr
    obtain ⟨p, hp, hrp⟩ := List.mem_flatMap.mp hr
    rw [pairCandidates_all_masked pass obj topn dfT _ p (hkill p hp)] at hrp
    exact absurd hrp (List.not_mem_nil r)
  simp only [hres, List.isEmpty_nil, if_true]

/-- C5: when the category selections are valid (each non-empty, at
least two trinkets) but the constraints eliminate every candidate
build, `optimise_builds` returns normally with an empty table that
still carries the full result schema; no exception is raised. -/
theorem c5_empty_result_not_error (cat : Catalog) (inv : Inventory) (cfg : OptimiseConfig)
    (hE : (filterSel cat.engine inv.engine).isEmpty = false)
    (hX : (filterSel cat.exhaust inv.exhaust).isEmpty = false)
    (hS : (filterSel cat.suspension inv.suspension).isEmpty = false)
    (hG : (filterSel cat.gearbox inv.gearbox).isEmpty = false)
    (hT2 : 2 ≤ (filterSel cat.trinket inv.trinket).length)
    (hkill : ∀ p ∈ pairIdx (filterSel cat.trinket inv.trinket).length,
      ∀ b ∈ baseBuilds (filterSel cat.engine inv.engine) (filterSel cat.exhaust inv.exhaust)
        (filterSel cat.suspension inv.suspension) (filterSel cat.gearbox inv.gearbox),
      passes (effCM cfg) (effCR cfg)
        (buildTotals (filterSel cat.trinket inv.trinket) p b) = false) :
    optimise cat inv cfg = .ok ⟨RESULT_COLS, []⟩ := by
  have hTe : (filterSel cat.trinket inv.trinket).isEmpty = false := by
    cases h : (filterSel cat.trinket inv.trinket).isEmpty
    · rfl
    · rw [List.isEmpty_iff] at h
      rw [h] at hT2
      simp at hT2
  have hfE : filt cat.engine inv.engine "ENGINE" = .ok (filterSel cat.engine inv.engine) := by
    unfold filt
    rw [if_neg (by simp [hE])]
  have hfX : filt cat.exhaust inv.exhaust "EXHAUST" = .ok (filterSel cat.exhaust inv.exhaust) := by
    unfold filt
    rw [if_neg (by simp [hX])]
  have hfS : filt cat.suspension inv.suspension "SUSPENSION" =
      .ok (filterSel cat.suspension inv.suspension) := by
    unfold filt
    rw [if_neg (by simp [hS])]
  have hfG : filt cat.gearbox inv.gearbox "GEARBOX" = .ok (filterSel cat.gearbox inv.gearbox) := by
    unfold filt
    rw [if_neg (by simp [hG])]
  have hfT : filt cat.trinket inv.trinket "TRINKET" = .ok (filterSel cat.trinket inv.trinket) := by
    unfold filt
    rw [if_neg (by simp [hTe])]
  unfold optimise
  simp only [bind, Except.bind]
  rw [hfE, hfX, hfS, hfG, hfT]
  unfold optimisePost
  simp only [bind, Except.bind]
  obtain ⟨tb, htb⟩ := trinketPairBounds_ok _ hT2
  have hcore := fun (obj : Stats → ℚ) => optimiseCore_all_masked (filterSel cat.engine inv.engine)
    (filterSel cat.exhaust inv.exhaust) (filterSel cat.suspension inv.suspension)
    (filterSel cat.gearbox inv.gearbox) (filterSel cat.trinket inv.trinket)
    cfg.top_n (passes (effCM cfg) (effCR cfg)) obj cfg.diverse cfg.min_diff_parts
    (cfg.per_part_max.getD []) hkill
  by_cases hn : cfg.normalize_objective = true
  · rw [if_pos hn]
    have hm : estimateMainScoreRanges (filterSel cat.engine inv.engine)
        (filterSel cat.exhaust inv.exhaust) (filterSel cat.suspension inv.suspension)
        (filterSel cat.gearbox inv.gearbox) (filterSel cat.trinket inv.trinket) =
        .ok (fun k =>
          if k = "race" then mainRangeOf (filterSel cat.engine inv.engine)
            (filterSel cat.exhaust inv.exhaust) (filterSel cat.suspension inv.suspension)
            (filterSel cat.gearbox inv.gearbox) tb RACE_COEFFS
          else if k = "coin" then mainRangeOf (filterSel cat.engine inv.engine)
            (filterSel cat.exhaust inv.exhaust) (filterSel cat.suspension inv.suspension)
            (filterSel cat.gearbox inv.gearbox) tb COIN_COEFFS
          else if k = "drift" then mainRangeOf (filterSel cat.engine inv.engine)
            (filterSel cat.exhaust inv.exhaust) (filterSel cat.suspension inv.suspension)
            (filterSel cat.gearbox inv.gearbox) tb DRIFT_COEFFS
          else if k = "combat" then mainRangeOf (filterSel cat.engine inv.engine)
            (filterSel cat.exhaust inv.exhaust) (filterSel cat.suspension inv.suspension)
            (filterSel cat.gearbox inv.gearbox) tb COMBAT_COEFFS
          else (0, 0)) := by
      unfold estimateMainScoreRanges
      rw [htb]
      rfl
    rw [hm]
    simp only
    by_cases hraw : (((effWR cfg).map Prod.fst).filter
        (fun k => RAW_STAT_KEYS.contains k)).isEmpty = true
    · rw [if_pos hraw]
      simp only [pure, Except.pure]
      rw [if_neg (by omega)]
      rw [hcore _]
    · rw [if_neg hraw]
      have hr : estimateRawStatRanges (filterSel cat.engine inv.engine)
          (filterSel cat.exhaust inv.exhaust) (filterSel cat.suspension inv.suspension)
          (filterSel cat.gearbox inv.gearbox) (filterSel cat.trinket inv.trinket)
          (((effWR cfg).map Prod.fst).filter (fun k => RAW_STAT_KEYS.contains k)) =
          .ok (fun k =>
            if (((effWR cfg).map Prod.fst).filter
                (fun k => RAW_STAT_KEYS.contains k)).contains k then
              some (rawRangeOf (filterSel cat.engine inv.engine)
                (filterSel cat.exhaust inv.exhaust) (filterSel cat.suspension inv.suspension)
                (filterSel cat.gearbox inv.gearbox) tb k)
            else none) := by
        unfold estimateRawStatRanges
        rw [htb]
        rfl
      rw [hr]
      simp only [pure, Except.pure]
      rw [if_neg (by omega)]
      rw [hcore _]
  · rw [if_neg hn]
    simp only [pure, Except.pure]
    rw [if_neg (by omega)]
    rw [hcore _]

def cfgC5 : OptimiseConfig :=
  { top_n := 3, weights_main := some [("race", 1)], normalize_objective := true,
    diverse := true, min_diff_parts := 2, per_part_max := none,
    constraints_main := some [("race", (some 100, none))] }

/-- C5 witness: a `race >= 100` constraint on a catalog whose best race
score is below 40 yields the empty, fully-schemed table. -/
theorem c5_empty_result_not_error_witness :
    optimise catW invW cfgC5 = .ok ⟨RESULT_COLS, []⟩ :=
  c5_empty_result_not_error catW invW cfgC5 (by decide) (by decide) (by decide) (by decide)
    (by decide) (by decide)

/- ================================================================
   C10: the diversity pass takes the best candidate unconditionally.
   ================================================================ -/

/-- C10: on a non-empty candidate table the diversity re-ranking always
returns the head of the objective-descending sort as its first row;
that row has maximal objective among all candidates, and the first pick
is independent of the per-part quota configuration (even a quota of 0
on one of its parts does not prevent it). -/
theorem c10_diversify_first_pick (df : List Row) (topn : ℕ) (minDiff : ℤ)
    (q : List (String × Option ℤ)) (hne : df ≠ []) :
    ∃ r0 rest, sortDescRows df = r0 :: rest ∧
      (diversifyByParts df topn minDiff q).head? = some r0 ∧
      r0 ∈ df ∧ (∀ r ∈ df, r.objective ≤ r0.objective) ∧
      (∀ q', (diversifyByParts df topn minDiff q').head? = some r0) := by
  cases h : sortDescRows df with
  | nil =>
    exfalso
    have := (sortDescRows_perm df).length_eq
    rw [h] at this
    exact hne (List.length_eq_zero.mp this.symm)
  | cons r0 rest =>
    haveI instTot : IsTotal Row (fun a b => b.objective ≤ a.objective) :=
      ⟨fun a b => le_total b.objective a.objective⟩
    haveI instTrans : IsTrans Row (fun a b => b.objective ≤ a.objective) :=
      ⟨fun _ _ _ hab hbc => le_trans hbc hab⟩
    have hsorted := List.sorted_insertionSort (fun (a b : Row) => b.objective ≤ a.objective) df
    rw [show List.insertionSort (fun (a b : Row) => b.objective ≤ a.objective) df =
      sortDescRows df from rfl, h, List.sorted_cons] at hsorted
    have hperm := sortDescRows_perm df
    rw [h] at hperm
    refine ⟨r0, rest, rfl, diversifyByParts_head df topn minDiff q r0 rest h,
      hperm.subset (List.mem_cons_self r0 rest), ?_,
      fun q' => diversifyByParts_head df topn minDiff q' r0 rest h⟩
    intro r hr
    rcases List.mem_cons.mp (hperm.symm.subset hr) with h1 | h1
    · rw [h1]
    · exact hsorted.1 r h1

def dfC10 : List Row :=
  [{ objective := 5, race := 1, coin := 0, drift := 0, combat := 0,
     engine := "e1", exhaust := "x1", suspension := "s1", gearbox := "g1",
     trinket1 := "t1", trinket2 := "t2" },
   { objective := 9, race := 2, coin := 0, drift := 0, combat := 0,
     engine := "e1", exhaust := "x1", suspension := "s1", gearbox := "g1",
     trinket1 := "t1", trinket2 := "t3" }]

/-- C10 witness: a two-row table with a zero quota on the best row's
engine; the best row is still picked first. -/
theorem c10_diversify_first_pick_witness :
    ∃ r0 rest, sortDescRows dfC10 = r0 :: rest ∧
      (diversifyByParts dfC10 2 2 [("ENGINE", some 0)]).head? = some r0 ∧
      r0 ∈ dfC10 ∧ (∀ r ∈ dfC10, r.objective ≤ r0.objective) ∧
      (∀ q', (diversifyByParts dfC10 2 2 q').head? = some r0) :=
  c10_diversify_first_pick dfC10 2 2 [("ENGINE", some 0)] (by decide)

/- ================================================================
   C2: top-N size law.
   ================================================================ -/

/-- The six part names of one candidate build. -/
def buildKey (dfT : List Part) (p : ℕ × ℕ) (b : Part × Part × Part × Part) : List String :=
  [b.1.name, b.2.1.name, b.2.2.1.name, b.2.2.2.name,
   (dfT.getD p.1 dPart).name, (dfT.getD p.2 dPart).name]

/-- De-duplication (keep first) on part-name keys. -/
def dedupKeysAux (seen : List (List String)) : List (List String) → List (List String)
  | [] => []
  | k :: ks => if k ∈ seen then dedupKeysAux seen ks else k :: dedupKeysAux (k :: seen) ks

/-- The builds surviving every constraint, keyed by their six part
names, enumerated exactly like the engine (per trinket pair over the
base cross-product). -/
def survivorKeys (dfE dfX dfS dfG dfT : List Part) (pass : Stats → Bool) :
    List (List String) :=
  (pairIdx dfT.length).flatMap (fun p =>
    ((baseBuilds dfE dfX dfS dfG).filter
      (fun b => pass (buildTotals dfT p b))).map (buildKey dfT p))

theorem partKey_mkRowFor (obj : Stats → ℚ) (dfT : List Part) (p : ℕ × ℕ)
    (b : Part × Part × Part × Part) : partKey (mkRowFor obj dfT p b) = buildKey dfT p b := rfl

theorem dedupKeysAux_eq_self : ∀ (l : List (List String)) (seen : List (List String)),
    l.Nodup → (∀ k ∈ l, k ∉ seen) → dedupKeysAux seen l = l := by
  intro l
  induction l with
  | nil => intro seen _ _; rfl
  | cons k ks ih =>
    intro seen hnd hdisj
    rw [List.nodup_cons] at hnd
    unfold dedupKeysAux
    rw [if_neg (hdisj k (List.mem_cons_self k ks))]
    congr 1
    apply ih _ hnd.2
    intro s hs hmem
    rcases List.mem_cons.mp hmem with h1 | h1
    · exact hnd.1 (h1 ▸ hs)
    · exact hdisj s (List.mem_cons_of_mem k hs) h1

theorem dedupRowsAux_eq_self : ∀ (l : List Row) (seen : List (List String)),
    (l.map partKey).Nodup → (∀ r ∈ l, partKey r ∉ seen) → dedupRowsAux seen l = l := by
  intro l
  induction l with
  | nil => intro seen _ _; rfl
  | cons r rs ih =>
    intro seen hnd hdisj
    rw [List.map_cons, List.nodup_cons] at hnd
    unfold dedupRowsAux
    rw [if_neg (hdisj r (List.mem_cons_self r rs))]
    congr 1
    apply ih _ hnd.2
    intro s hs hmem
    rcases List.mem_cons.mp hmem with h1 | h1
    · exact hnd.1 (h1 ▸ List.mem_map_of_mem partKey hs)
    · exact hdisj s (List.mem_cons_of_mem r hs) h1

/-- The filter inside a pair's candidate selection counts exactly the
surviving builds of that pair. -/
theorem pairCandidates_maskCount (pass : Stats → Bool) (obj : Stats → ℚ)
    (dfT : List Part) (base : List (Part × Part × Part × Part)) (p : ℕ × ℕ) :
    ((base.map (fun b =>
      ((if pass (buildTotals dfT p b) then ((obj (buildTotals dfT p b) : ℚ) : WithBot ℚ) else ⊥),
       mkRowFor obj dfT p b))).filter (fun e => decide (e.1 ≠ (⊥ : WithBot ℚ)))).length =
    (base.filter (fun b => pass (buildTotals dfT p b))).length := by
  rw [List.filter_map]
  rw [List.length_map]
  congr 1
  apply List.filter_congr
  intro b _
  simp only [Function.comp]
  by_cases hp : pass (buildTotals dfT p b) = true
  · simp [hp, WithBot.coe_ne_bot]
  · rw [Bool.not_eq_true] at hp
    simp [hp]

theorem pairCandidates_length (pass : Stats → Bool) (obj : Stats → ℚ) (topn : ℕ)
    (dfT : List Part) (base : List (Part × Part × Part × Part)) (p : ℕ × ℕ) :
    (pairCandidates pass obj topn dfT base p).length =
      min (max (topn * 20) topn)
        ((base.filter (fun b => pass (buildTotals dfT p b))).length) := by
  unfold pairCandidates
  simp only
  rw [pairCandidates_maskCount pass obj dfT base p]
  set s := (base.filter (fun b => pass (buildTotals dfT p b))).length with hs
  by_cases h0 : s = 0
  · rw [if_pos h0, h0]
    simp
  · rw [if_neg h0]
    rw [List.length_map, List.length_take, List.length_insertionSort, List.length_map]
    have hsle : s ≤ base.length := by
      rw [hs]
      exact List.length_filter_le _ _
    omega

theorem optimiseCore_results_length (dfE dfX dfS dfG dfT : List Part) (topn : ℕ)
    (pass : Stats → Bool) (obj : Stats → ℚ) :
    ((pairIdx dfT.length).flatMap
      (pairCandidates pass obj topn dfT (baseBuilds dfE dfX dfS dfG))).length =
    ((pairIdx dfT.length).map (fun p => min (max (topn * 20) topn)
      (((baseBuilds dfE dfX dfS dfG).filter
        (fun b => pass (buildTotals dfT p b))).length))).sum := by
  rw [List.length_flatMap]
  congr 1
  apply List.map_congr_left
  intro p _
  exact pairCandidates_length pass obj topn dfT _ p

theorem survivorKeys_length (dfE dfX dfS dfG dfT : List Part) (pass : Stats → Bool) :
    (survivorKeys dfE dfX dfS dfG dfT pass).length =
    ((pairIdx dfT.length).map (fun p =>
      (((baseBuilds dfE dfX dfS dfG).filter
        (fun b => pass (buildTotals dfT p b))).length))).sum := by
  unfold survivorKeys
  rw [List.length_flatMap]
  congr 1
  apply List.map_congr_left
  intro p _
  exact List.length_map _ _

theorem sum_map_min_le (m : ℕ) (l : List ℕ) : (l.map (fun s => min m s)).sum ≤ l.sum := by
  induction l with
  | nil => simp
  | cons s t ih =>
    simp only [List.map_cons, List.sum_cons]
    have := min_le_right m s
    omega

theorem min_sum_min (n : ℕ) (l : List ℕ) :
    min n ((l.map (fun s => min (max (n * 20) n) s)).sum) = min n l.sum := by
  induction l with
  | nil => simp
  | cons s t ih =>
    simp only [List.map_cons, List.sum_cons] at ih ⊢
    have hAB := sum_map_min_le (max (n * 20) n) t
    omega

/-- Concatenated blocks are duplicate-free when the blocks are, blocks
are labelled by distinct names, and every element carries its block's
label. -/
theorem nodup_flatMap_of_fst {α β γ : Type} (l : List α) (nm : α → γ) (f : α → List β)
    (cmp : β → γ) (hl : (l.map nm).Nodup) (hin : ∀ a ∈ l, (f a).Nodup)
    (hcmp : ∀ a ∈ l, ∀ b ∈ f a, cmp b = nm a) : (l.flatMap f).Nodup := by
  rw [List.nodup_flatMap]
  refine ⟨hin, ?_⟩
  have hp : l.Pairwise (fun a b => nm a ≠ nm b) := by
    rw [List.Nodup, List.pairwise_map] at hl
    exact hl
  rw [List.pairwise_iff_forall_sublist]
  intro a b hsub
  have ha : a ∈ l := hsub.subset (by simp)
  have hb : b ∈ l := hsub.subset (by simp)
  have hne : nm a ≠ nm b := List.pairwise_iff_forall_sublist.mp hp hsub
  rw [Function.onFun, List.disjoint_left]
  intro x hxa hxb
  exact hne (by rw [← hcmp a ha x hxa, hcmp b hb x hxb])

theorem mem_baseBuilds (dfE dfX dfS dfG : List Part) (b : Part × Part × Part × Part)
    (hb : b ∈ baseBuilds dfE dfX dfS dfG) :
    b.1 ∈ dfE ∧ b.2.1 ∈ dfX ∧ b.2.2.1 ∈ dfS ∧ b.2.2.2 ∈ dfG := by
  unfold baseBuilds at hb
  simp only [List.mem_flatMap, List.mem_map] at hb
  obtain ⟨e, he, x, hx, s, hs, g, hg, heq⟩ := hb
  rw [← heq]
  exact ⟨he, hx, hs, hg⟩

theorem baseBuilds_nodup (dfE dfX dfS dfG : List Part)
    (hE : (dfE.map Part.name).Nodup) (hX : (dfX.map Part.name).Nodup)
    (hS : (dfS.map Part.name).Nodup) (hG : (dfG.map Part.name).Nodup) :
    (baseBuilds dfE dfX dfS dfG).Nodup := by
  unfold baseBuilds
  apply nodup_flatMap_of_fst dfE Part.name _ (fun b => b.1.name) hE
  · intro e _
    apply nodup_flatMap_of_fst dfX Part.name _ (fun b => b.2.1.name) hX
    · intro x _
      apply nodup_flatMap_of_fst dfS Part.name _ (fun b => b.2.2.1.name) hS
      · intro s _
        apply List.Nodup.map
        · intro g g' hgg
          simpa using hgg
        · exact hG.of_map Part.name
      · intro s _ b hbmem
        obtain ⟨g, _, heq⟩ := List.mem_map.mp hbmem
        rw [← heq]
    · intro x _ b hbmem
      simp only [List.mem_flatMap, List.mem_map] at hbmem
      obtain ⟨s, _, g, _, heq⟩ := hbmem
      rw [← heq]
  · intro e _ b hbmem
    simp only [List.mem_flatMap, List.mem_map] at hbmem
    obtain ⟨x, _, s, _, g, _, heq⟩ := hbmem
    rw [← heq]

theorem buildKey_inj_on (dfE dfX dfS dfG dfT : List Part) (p : ℕ × ℕ)
    (hE : (dfE.map Part.name).Nodup) (hX : (dfX.map Part.name).Nodup)
    (hS : (dfS.map Part.name).Nodup) (hG : (dfG.map Part.name).Nodup) :
    ∀ b ∈ baseBuilds dfE dfX dfS dfG, ∀ b' ∈ baseBuilds dfE dfX dfS dfG,
    buildKey dfT p b = buildKey dfT p b' → b = b' := by
  intro b hb b' hb' hk
  obtain ⟨e, x, s, g⟩ := b
  obtain ⟨e', x', s', g'⟩ := b'
  obtain ⟨he, hx, hs, hg⟩ := mem_baseBuilds dfE dfX dfS dfG _ hb
  obtain ⟨he', hx', hs', hg'⟩ := mem_baseBuilds dfE dfX dfS dfG _ hb'
  unfold buildKey at hk
  simp only [List.cons.injEq, and_true] at hk
  obtain ⟨k1, k2, k3, k4⟩ := hk
  simp only at he hx hs hg he' hx' hs' hg' k1 k2 k3 k4
  have e1 := List.inj_on_of_nodup_map hE he he' k1
  have e2 := List.inj_on_of_nodup_map hX hx hx' k2
  have e3 := List.inj_on_of_nodup_map hS hs hs' k3
  have e4 := List.inj_on_of_nodup_map hG hg hg' k4
  rw [e1, e2, e3, e4]

theorem baseKeys_nodup (dfE dfX dfS dfG dfT : List Part) (p : ℕ × ℕ)
    (hE : (dfE.map Part.name).Nodup) (hX : (dfX.map Part.name).Nodup)
    (hS : (dfS.map Part.name).Nodup) (hG : (dfG.map Part.name).Nodup) :
    ((baseBuilds dfE dfX dfS dfG).map (buildKey dfT p)).Nodup :=
  (baseBuilds_nodup dfE dfX dfS dfG hE hX hS hG).map_on
    (buildKey_inj_on dfE dfX dfS dfG dfT p hE hX hS hG)

theorem pairCandidates_keys_nodup (pass : Stats → Bool) (obj : Stats → ℚ) (topn : ℕ)
    (dfE dfX dfS dfG dfT : List Part) (p : ℕ × ℕ)
    (hE : (dfE.map Part.name).Nodup) (hX : (dfX.map Part.name).Nodup)
    (hS : (dfS.map Part.name).Nodup) (hG : (dfG.map Part.name).Nodup) :
    ((pairCandidates pass obj topn dfT (baseBuilds dfE dfX dfS dfG) p).map partKey).Nodup := by
  unfold pairCandidates
  set base := baseBuilds dfE dfX dfS dfG with hbase
  set entries := base.map (fun b =>
    let t := buildTotals dfT p b
    ((if pass t then ((obj t : ℚ) : WithBot ℚ) else ⊥), mkRowFor obj dfT p b)) with hentries
  by_cases hm : (entries.filter (fun e => decide (e.1 ≠ (⊥ : WithBot ℚ)))).length = 0
  · rw [if_pos hm]
    exact List.nodup_nil
  · rw [if_neg hm]
    rw [List.map_map, List.map_take, ← List.map_map (f := Prod.snd) (g := partKey)]
    have hperm : ((entries.insertionSort (fun a b => b.1 ≤ a.1)).map Prod.snd).map partKey
        |>.Perm ((entries.map Prod.snd).map partKey) :=
      ((List.perm_insertionSort _ entries).map Prod.snd).map partKey
    have hkeys : ((entries.map Prod.snd).map partKey).Nodup := by
      rw [hentries, List.map_map, List.map_map]
      exact baseKeys_nodup dfE dfX dfS dfG dfT p hE hX hS hG
    exact List.Sublist.nodup (List.take_sublist _ _) (hperm.nodup_iff.mpr hkeys)

theorem nmPair_nodup (dfT : List Part) (hT : (dfT.map Part.name).Nodup) :
    ((pairIdx dfT.length).map (fun p =>
      (((dfT.getD p.1 dPart).name), ((dfT.getD p.2 dPart).name)))).Nodup := by
  apply (pairIdx_nodup dfT.length).map_on
  intro p hp p' hp' hnm
  obtain ⟨h12, h2T⟩ := (mem_pairIdx _ p).mp hp
  obtain ⟨h12', h2T'⟩ := (mem_pairIdx _ p').mp hp'
  simp only [Prod.mk.injEq] at hnm
  have e1 := getD_name_inj dfT hT p.1 p'.1 (lt_trans h12 h2T) (lt_trans h12' h2T') hnm.1
  have e2 := getD_name_inj dfT hT p.2 p'.2 h2T h2T' hnm.2
  exact Prod.ext e1 e2

theorem resultsKeys_nodup (dfE dfX dfS dfG dfT : List Part) (topn : ℕ)
    (pass : Stats → Bool) (obj : Stats → ℚ)
    (hE : (dfE.map Part.name).Nodup) (hX : (dfX.map Part.name).Nodup)
    (hS : (dfS.map Part.name).Nodup) (hG : (dfG.map Part.name).Nodup)
    (hT : (dfT.map Part.name).Nodup) :
    (((pairIdx dfT.length).flatMap
      (pairCandidates pass obj topn dfT (baseBuilds dfE dfX dfS dfG))).map partKey).Nodup := by
  rw [List.map_flatMap]
  apply nodup_flatMap_of_fst (pairIdx dfT.length)
    (fun p => (((dfT.getD p.1 dPart).name), ((dfT.getD p.2 dPart).name))) _
    (fun k => (k.getD 4 "", k.getD 5 "")) (nmPair_nodup dfT hT)
  · intro p _
    exact pairCandidates_keys_nodup pass obj topn dfE dfX dfS dfG dfT p hE hX hS hG
  · intro p _ k hk
    obtain ⟨r, hr, hrk⟩ := List.mem_map.mp hk
    obtain ⟨b, _, _, hrow⟩ := pairCandidates_mem pass obj topn dfT _ p r hr
    rw [← hrk, hrow, partKey_mkRowFor]
    rfl

theorem survivorKeys_nodup (dfE dfX dfS dfG dfT : List Part) (pass : Stats → Bool)
    (hE : (dfE.map Part.name).Nodup) (hX : (dfX.map Part.name).Nodup)
    (hS : (dfS.map Part.name).Nodup) (hG : (dfG.map Part.name).Nodup)
    (hT : (dfT.map Part.name).Nodup) :
    (survivorKeys dfE dfX dfS dfG dfT pass).Nodup := by
  unfold survivorKeys
  apply nodup_flatMap_of_fst (pairIdx dfT.length)
    (fun p => (((dfT.getD p.1 dPart).name), ((dfT.getD p.2 dPart).name))) _
    (fun k => (k.getD 4 "", k.getD 5 "")) (nmPair_nodup dfT hT)
  · intro p _
    exact List.Sublist.nodup
      ((List.filter_sublist _).map (buildKey dfT p))
      (baseKeys_nodup dfE dfX dfS dfG dfT p hE hX hS hG)
  · intro p _ k hk
    obtain ⟨b, _, hbk⟩ := List.mem_map.mp hk
    rw [← hbk]
    rfl

theorem min_sum_pairs (topn : ℕ) (pairs : List (ℕ × ℕ)) (s : (ℕ × ℕ) → ℕ) :
    min topn ((pairs.map (fun p => min (max (topn * 20) topn) (s p))).sum) =
    min topn ((pairs.map s).sum) := by
  have h1 : pairs.map (fun p => min (max (topn * 20) topn) (s p)) =
      (pairs.map s).map (fun v => min (max (topn * 20) topn) v) := by
    rw [List.map_map]
    rfl
  rw [h1, min_sum_min]

/-- With no quota active, the number of returned rows — on either the
diverse or the truncation path — is `min top_n` of the number of
distinct surviving builds. -/
theorem optimiseCore_length (dfE dfX dfS dfG dfT : List Part) (topn : ℕ)
    (pass : Stats → Bool) (obj : Stats → ℚ) (diverse : Bool) (minDiff : ℤ)
    (hE : (dfE.map Part.name).Nodup) (hX : (dfX.map Part.name).Nodup)
    (hS : (dfS.map Part.name).Nodup) (hG : (dfG.map Part.name).Nodup)
    (hT : (dfT.map Part.name).Nodup) :
    (optimiseCore dfE dfX dfS dfG dfT topn pass obj diverse minDiff []).rows.length =
      min topn (dedupKeysAux [] (survivorKeys dfE dfX dfS dfG dfT pass)).length := by
  have hD : (dedupKeysAux [] (survivorKeys dfE dfX dfS dfG dfT pass)).length =
      ((pairIdx dfT.length).map (fun p => (((baseBuilds dfE dfX dfS dfG).filter
        (fun b => pass (buildTotals dfT p b))).length))).sum := by
    rw [dedupKeysAux_eq_self _ _ (survivorKeys_nodup dfE dfX dfS dfG dfT pass hE hX hS hG hT)
      (fun k _ => List.not_mem_nil k)]
    exact survivorKeys_length dfE dfX dfS dfG dfT pass
  unfold optimiseCore
  set results := (pairIdx dfT.length).flatMap
    (pairCandidates pass obj topn dfT (baseBuilds dfE dfX dfS dfG)) with hres
  have hrlen := optimiseCore_results_length dfE dfX dfS dfG dfT topn pass obj
  by_cases hemp : results.isEmpty = true
  · rw [if_pos hemp]
    simp only [List.length_nil]
    rw [List.isEmpty_iff] at hemp
    have h0 : results.length = 0 := by rw [hemp]; rfl
    rw [hres] at h0
    rw [h0] at hrlen
    rw [hD, ← min_sum_pairs topn, ← hrlen]
    simp
  · rw [if_neg hemp]
    have hkeys := resultsKeys_nodup dfE dfX dfS dfG dfT topn pass obj hE hX hS hG hT
    rw [← hres] at hkeys
    have hsortkeys : ((sortDescRows results).map partKey).Nodup :=
      ((sortDescRows_perm results).map partKey).nodup_iff.mpr hkeys
    have hdedup : dedupRows (sortDescRows results) = sortDescRows results := by
      rw [dedupRows]
      exact dedupRowsAux_eq_self _ [] hsortkeys (fun r _ => List.not_mem_nil _)
    have hdflen : (dedupRows (sortDescRows results)).length = results.length := by
      rw [hdedup]
      exact (sortDescRows_perm results).length_eq
    have hne : results ≠ [] := by
      intro h
      rw [h] at hemp
      exact hemp rfl
    simp only
    by_cases hdiv : diverse = true
    · rw [if_pos hdiv]
      have h1top : 1 ≤ topn := by
        by_contra h
        have ht0 : topn = 0 := by omega
        have hlen0 : results.length = 0 := by
          rw [hres, hrlen, ht0]
          simp
        exact hne (List.length_eq_zero.mp hlen0)
      rw [diversifyByParts_len _ topn minDiff h1top, hdflen, hD]
      rw [hres, hrlen]
      exact min_sum_pairs topn _ _
    · rw [if_neg hdiv]
      rw [List.length_take, hdflen, hD]
      rw [hres, hrlen]
      exact min_sum_pairs topn _ _

def invOneEngine : Inventory := ⟨["e1"], ["x1"], ["s1"], ["g1"], ["t1", "t2", "t3"]⟩

def cfgQuota : OptimiseConfig :=
  { top_n := 2, weights_main := some [("race", 1)], normalize_objective := false,
    diverse := true, min_diff_parts := 2, per_part_max := some [("ENGINE", some 1)] }

/-- C2 counterexample: with an active per-part quota (`ENGINE` limited
to 1) on a single-engine catalog, three distinct builds survive and
`top_n = 2`, yet only one row is returned: the quota exception forced by
`ok_quota` makes the stated size law fail. -/
theorem c2_topn_size_counterexample :
    (optimise catW invOneEngine cfgQuota).map (fun fr => fr.rows.length) = .ok 1 ∧
    min cfgQuota.top_n (dedupKeysAux [] (survivorKeys
      (filterSel catW.engine invOneEngine.engine)
      (filterSel catW.exhaust invOneEngine.exhaust)
      (filterSel catW.suspension invOneEngine.suspension)
      (filterSel catW.gearbox invOneEngine.gearbox)
      (filterSel catW.trinket invOneEngine.trinket)
      (passes (effCM cfgQuota) (effCR cfgQuota)))).length = 2 ∧
    (1 : ℕ) ≠ 2 :=
  ⟨by decide, by decide, by decide⟩

/-- C2 amended: the returned table has exactly
`min(top_n, number of distinct surviving builds after de-duplication)`
rows *provided no per-part quota is active* (`per_part_max` absent or
empty); with an active quota the result can be strictly smaller.
(Part names are assumed unique per category, per the data model.) -/
theorem c2_topn_size_amended (cat : Catalog) (inv : Inventory) (cfg : OptimiseConfig)
    (f : Frame) (hq : cfg.per_part_max.getD [] = [])
    (hE : ((filterSel cat.engine inv.engine).map Part.name).Nodup)
    (hX : ((filterSel cat.exhaust inv.exhaust).map Part.name).Nodup)
    (hS : ((filterSel cat.suspension inv.suspension).map Part.name).Nodup)
    (hG : ((filterSel cat.gearbox inv.gearbox).map Part.name).Nodup)
    (hT : ((filterSel cat.trinket inv.trinket).map Part.name).Nodup)
    (hf : optimise cat inv cfg = .ok f) :
    f.rows.length = min cfg.top_n
      (dedupKeysAux [] (survivorKeys (filterSel cat.engine inv.engine)
        (filterSel cat.exhaust inv.exhaust) (filterSel cat.suspension inv.suspension)
        (filterSel cat.gearbox inv.gearbox) (filterSel cat.trinket inv.trinket)
        (passes (effCM cfg) (effCR cfg)))).length := by
  obtain ⟨obj, hfe, _⟩ := optimise_ok_elim cat inv cfg f hf
  rw [hfe, hq]
  exact optimiseCore_length _ _ _ _ _ cfg.top_n _ obj cfg.diverse cfg.min_diff_parts
    hE hX hS hG hT

def frameC2 : Frame :=
  match optimise catW invW cfgW with
  | .ok f => f
  | .error _ => ⟨[], []⟩

/-- C2 witness: the quota-free diverse run returns
`min(2, 6) = 2` rows. -/
theorem c2_topn_size_amended_witness :
    frameC2.rows.length = min cfgW.top_n
      (dedupKeysAux [] (survivorKeys (filterSel catW.engine invW.engine)
        (filterSel catW.exhaust invW.exhaust) (filterSel catW.suspension invW.suspension)
        (filterSel catW.gearbox invW.gearbox) (filterSel catW.trinket invW.trinket)
        (passes (effCM cfgW) (effCR cfgW)))).length :=
  c2_topn_size_amended catW invW cfgW frameC2 (by decide) (by decide) (by decide) (by decide)
    (by decide) (by decide) (by decide)

/- ================================================================
   C7: run-signature completeness.
   ================================================================ -/

theorem lookup_some_mem {β : Type} (k : String) (v : β) :
    ∀ (l : List (String × β)), l.lookup k = some v → (k, v) ∈ l := by
  intro l
  induction l with
  | nil => intro h; exact absurd h (by simp [List.lookup])
  | cons a t ih =>
    obtain ⟨k', b⟩ := a
    intro h
    simp only [List.lookup] at h
    split at h
    · rename_i hbeq
      have hk : k = k' := by
        have := of_decide_eq_true (by simpa using hbeq)
        exact this
      rw [Option.some.inj h] at *
      rw [hk]
      exact List.mem_cons_self _ _
    · exact List.mem_cons_of_mem _ (ih h)

theorem lookup_of_mem_nodup {β : Type} (k : String) (v : β) :
    ∀ (l : List (String × β)), (l.map Prod.fst).Nodup → (k, v) ∈ l →
    l.lookup k = some v := by
  intro l
  induction l with
  | nil => intro _ h; exact absurd h (List.not_mem_nil _)
  | cons a t ih =>
    obtain ⟨k', b⟩ := a
    intro hnd hmem
    rw [List.map_cons, List.nodup_cons] at hnd
    rcases List.mem_cons.mp hmem with h1 | h1
    · simp only [Prod.mk.injEq] at h1
      simp [List.lookup, h1.1, h1.2]
    · have hk : k ≠ k' := by
        intro he
        apply hnd.1
        have : k ∈ t.map Prod.fst := List.mem_map_of_mem Prod.fst h1
        rw [← he]
        exact this
      have hbeq : (k == k') = false := by
        rw [beq_eq_false_iff_ne]
        exact hk
      simp only [List.lookup, hbeq]
      exact ih hnd.2 h1

theorem all_congr_mem {α : Type} (l : List α) (p q : α → Bool)
    (hpq : ∀ x ∈ l, p x = q x) : l.all p = l.all q := by
  induction l with
  | nil => rfl
  | cons y ys ih =>
    have h0 : p y = q y := hpq y (List.mem_cons_self y ys)
    have h1 := ih fun z hz => hpq z (List.mem_cons_of_mem y hz)
    rw [List.all_cons, List.all_cons, h0, h1]

/-- Membership-wise evaluation of a keyed constraint mask: a
duplicate-free association list whose out-of-domain entries are
trivially satisfied is equivalent to checking every key of the domain
against its looked-up (or default) bounds. -/
theorem all_eq_keyed {β : Type} (l : List (String × β)) (keys : List String) (dflt : β)
    (p : String → β → Bool)
    (hnd : (l.map Prod.fst).Nodup)
    (hout : ∀ kv ∈ l, kv.1 ∉ keys → p kv.1 kv.2 = true)
    (hdflt : ∀ k, p k dflt = true) :
    (l.all (fun kv => p kv.1 kv.2)) = (keys.all (fun k => p k ((l.lookup k).getD dflt))) := by
  rw [Bool.eq_iff_iff, List.all_eq_true, List.all_eq_true]
  constructor
  · intro h k _
    cases hl : l.lookup k with
    | none => simpa using hdflt k
    | some v =>
      simpa using h (k, v) (lookup_some_mem k v l hl)
  · intro h kv hkv
    by_cases hink : kv.1 ∈ keys
    · have hx := h kv.1 hink
      rw [lookup_of_mem_nodup kv.1 kv.2 l hnd hkv] at hx
      simpa using hx
    · exact hout kv hkv hink

theorem passMain_eq_keyed (cm : List (String × (Option ℚ × Option ℚ))) (t : Stats)
    (hnd : (cm.map Prod.fst).Nodup) (hsub : ∀ kv ∈ cm, kv.1 ∈ MAIN_SCORES) :
    passMain cm t = MAIN_SCORES.all
      (fun k => boundOk (mainScore k t) ((cm.lookup k).getD (none, none))) := by
  rw [passMain]
  apply all_eq_keyed cm MAIN_SCORES (none, none) (fun k v => boundOk (mainScore k t) v) hnd
  · intro kv hkv hnot
    exact absurd (hsub kv hkv) hnot
  · intro k
    rfl

theorem passRaw_eq_keyed (cr : List (String × (Option ℚ × Option ℚ))) (t : Stats)
    (hnd : (cr.map Prod.fst).Nodup) :
    passRaw cr t = RAW_STAT_KEYS.all
      (fun k => !(decide (k ∈ RAW_STAT_KEYS)) || boundOk (t k) ((cr.lookup k).getD (none, none))) := by
  rw [passRaw]
  apply all_eq_keyed cr RAW_STAT_KEYS (none, none)
    (fun k v => !(decide (k ∈ RAW_STAT_KEYS)) || boundOk (t k) v) hnd
  · intro kv _ hnot
    simp [hnot]
  · intro k
    by_cases hk : k ∈ RAW_STAT_KEYS
    · have : boundOk (t k) ((none : Option ℚ), (none : Option ℚ)) = true := rfl
      simp [this]
    · simp [hk]

theorem sortedStr_eq_perm (l1 l2 : List String) (h : pySortedStr l1 = pySortedStr l2) :
    l1.Perm l2 := by
  have h1 := List.perm_insertionSort (fun a b => pyStrLe a b = true) l1
  have h2 := List.perm_insertionSort (fun a b => pyStrLe a b = true) l2
  unfold pySortedStr at h
  rw [h] at h1
  exact h1.symm.trans h2

theorem sortedPairs_eq_perm (l1 l2 : List (String × ℚ))
    (h : pySortedPairs l1 = pySortedPairs l2) : l1.Perm l2 := by
  have h1 := List.perm_insertionSort
    (fun (a b : String × ℚ) => (pyStrLt a.1 b.1 || (a.1 == b.1 && decide (a.2 ≤ b.2))) = true) l1
  have h2 := List.perm_insertionSort
    (fun (a b : String × ℚ) => (pyStrLt a.1 b.1 || (a.1 == b.1 && decide (a.2 ≤ b.2))) = true) l2
  unfold pySortedPairs at h
  rw [h] at h1
  exact h1.symm.trans h2

theorem filterSel_congr (df : List Part) (n1 n2 : List String) (hp : n1.Perm n2) :
    filterSel df n1 = filterSel df n2 := by
  unfold filterSel
  apply List.filter_congr
  intro p _
  exact decide_eq_decide.mpr (hp.mem_iff)

theorem filt_congr (df : List Part) (n1 n2 : List String) (catName : String)
    (hp : n1.Perm n2) : filt df n1 catName = filt df n2 catName := by
  unfold filt
  rw [filterSel_congr df n1 n2 hp]

theorem contains_eq_of_perm {l1 l2 : List String} (h : l1.Perm l2) (x : String) :
    l1.contains x = l2.contains x := by
  by_cases hm : x ∈ l1
  · have e1 : l1.elem x = true := List.elem_iff.mpr hm
    have e2 : l2.elem x = true := List.elem_iff.mpr (h.subset hm)
    show l1.elem x = l2.elem x
    rw [e1, e2]
  · have e1 : l1.elem x = false :=
      Bool.eq_false_iff.mpr (fun hc => hm (List.elem_iff.mp hc))
    have e2 : l2.elem x = false :=
      Bool.eq_false_iff.mpr (fun hc => hm (h.symm.subset (List.elem_iff.mp hc)))
    show l1.elem x = l2.elem x
    rw [e1, e2]

theorem isEmpty_eq_of_perm {α : Type} {l1 l2 : List α} (h : l1.Perm l2) :
    l1.isEmpty = l2.isEmpty := by
  cases l1 with
  | nil =>
    have : l2 = [] := (List.perm_nil.mp h.symm)
    rw [this]
  | cons a t =>
    cases l2 with
    | nil => exact absurd (List.perm_nil.mp h) (by simp)
    | cons b s => rfl

theorem objective_congr (norm : Bool) (mr : String → ℚ × ℚ) (rr : String → Option (ℚ × ℚ))
    (wmA wmB wrA wrB : List (String × ℚ)) (hwm : wmA.Perm wmB) (hwr : wrA.Perm wrB) :
    objective norm mr rr wmA wrA = objective norm mr rr wmB wrB := by
  funext t
  unfold objective
  rw [(hwm.map (objTermMain norm mr t)).sum_eq, (hwr.map (objTermRaw norm rr t)).sum_eq]

theorem estimateRawStatRanges_congr (dfE dfX dfS dfG dfT : List Part)
    (k1 k2 : List String) (h : ∀ x, k1.contains x = k2.contains x) :
    estimateRawStatRanges dfE dfX dfS dfG dfT k1 =
    estimateRawStatRanges dfE dfX dfS dfG dfT k2 := by
  unfold estimateRawStatRanges
  cases htb : trinketPairBounds dfT with
  | error e => rfl
  | ok tb =>
    simp only [bind, Except.bind, pure, Except.pure]
    congr 1
    funext k
    rw [h k]

/-- Congruence of the engine body in the inputs the signature records:
two configs with permuted weight mappings, extensionally equal masks,
and equal scalar settings produce identical results. -/
theorem optimisePost_congr (dfE dfX dfS dfG dfT : List Part) (cfgA cfgB : OptimiseConfig)
    (htop : cfgA.top_n = cfgB.top_n)
    (hnorm : cfgA.normalize_objective = cfgB.normalize_objective)
    (hdiv : cfgA.diverse = cfgB.diverse)
    (hmdp : cfgA.min_diff_parts = cfgB.min_diff_parts)
    (hqq : cfgA.per_part_max = cfgB.per_part_max)
    (hwm : (effWM cfgA).Perm (effWM cfgB))
    (hwr : (effWR cfgA).Perm (effWR cfgB))
    (hpass : passes (effCM cfgA) (effCR cfgA) = passes (effCM cfgB) (effCR cfgB)) :
    optimisePost dfE dfX dfS dfG dfT cfgA = optimisePost dfE dfX dfS dfG dfT cfgB := by
  unfold optimisePost
  simp only [bind, Except.bind]
  rw [← hnorm, ← htop, ← hdiv, ← hmdp, ← hqq, ← hpass]
  have hrawkeys : ∀ x, (((effWR cfgA).map Prod.fst).filter
      (fun k => RAW_STAT_KEYS.contains k)).contains x =
      (((effWR cfgB).map Prod.fst).filter (fun k => RAW_STAT_KEYS.contains k)).contains x :=
    contains_eq_of_perm (((hwr.map Prod.fst)).filter _)
  have hempt : (((effWR cfgA).map Prod.fst).filter
      (fun k => RAW_STAT_KEYS.contains k)).isEmpty =
      (((effWR cfgB).map Prod.fst).filter (fun k => RAW_STAT_KEYS.contains k)).isEmpty :=
    isEmpty_eq_of_perm (((hwr.map Prod.fst)).filter _)
  have hobj : ∀ (mr : String → ℚ × ℚ) (rr : String → Option (ℚ × ℚ)),
      objective cfgA.normalize_objective mr rr (effWM cfgA) (effWR cfgA) =
      objective cfgA.normalize_objective mr rr (effWM cfgB) (effWR cfgB) :=
    fun mr rr => objective_congr cfgA.normalize_objective mr rr _ _ _ _ hwm hwr
  rw [← hempt, ← estimateRawStatRanges_congr dfE dfX dfS dfG dfT _ _ hrawkeys]
  by_cases hn : cfgA.normalize_objective = true
  · rw [if_pos hn, if_pos hn]
    cases hm : estimateMainScoreRanges dfE dfX dfS dfG dfT with
    | error e => rfl
    | ok mr =>
      simp only
      by_cases hre : (((effWR cfgA).map Prod.fst).filter
          (fun k => RAW_STAT_KEYS.contains k)).isEmpty = true
      · rw [if_pos hre, if_pos hre]
        simp only [pure, Except.pure]
        by_cases hT2 : dfT.length < 2
        · rw [if_pos hT2, if_pos hT2]
        · rw [if_neg hT2, if_neg hT2]
          rw [hobj mr (fun _ => none)]
      · rw [if_neg hre, if_neg hre]
        cases hrr : estimateRawStatRanges dfE dfX dfS dfG dfT
            (((effWR cfgA).map Prod.fst).filter (fun k => RAW_STAT_KEYS.contains k)) with
        | error e => rfl
        | ok rr =>
          simp only [pure, Except.pure]
          by_cases hT2 : dfT.length < 2
          · rw [if_pos hT2, if_pos hT2]
          · rw [if_neg hT2, if_neg hT2]
            rw [hobj mr rr]
  · rw [if_neg hn, if_neg hn]
    simp only [pure, Except.pure]
    by_cases hT2 : dfT.length < 2
    · rw [if_pos hT2, if_pos hT2]
    · rw [if_neg hT2, if_neg hT2]
      rw [hobj _ _]

theorem effWM_perm_of_sig (cfgA cfgB : OptimiseConfig)
    (h : pySortedPairs (cfgA.weights_main.getD []) = pySortedPairs (cfgB.weights_main.getD [])) :
    (effWM cfgA).Perm (effWM cfgB) := by
  have hp := sortedPairs_eq_perm _ _ h
  have hfal : wmFalsy cfgA.weights_main = wmFalsy cfgB.weights_main := by
    unfold wmFalsy
    exact isEmpty_eq_of_perm hp
  unfold effWM
  by_cases hf : wmFalsy cfgA.weights_main = true
  · rw [if_pos hf, if_pos (hfal ▸ hf)]
  · rw [if_neg hf, if_neg (fun hc => hf (hfal ▸ hc))]
    exact hp

/-- C7 counterexample: the signature omits the diversity settings.  Two
configs differing only in `diverse` have equal signatures but return
different tables on the same catalog and inventory. -/
theorem c7_signature_counterexample :
    makeRunSignature invW cfgW "Custom" =
      makeRunSignature invW { cfgW with diverse := false } "Custom" ∧
    optimise catW invW cfgW ≠ optimise catW invW { cfgW with diverse := false } :=
  ⟨by decide, by decide⟩

/-- C7 amended: the signature captures every result-affecting input
*except* the diversity settings (`diverse`, `min_diff_parts`,
`per_part_max`).  For configs agreeing on those three fields (with the
dict invariants: duplicate-free constraint keys, main-constraint keys
drawn from the four score names), equal signatures imply identical
results on the same catalog. -/
theorem c7_signature_amended (cat : Catalog) (invA invB : Inventory)
    (cfgA cfgB : OptimiseConfig) (preset : String)
    (hsig : makeRunSignature invA cfgA preset = makeRunSignature invB cfgB preset)
    (hdiv : cfgA.diverse = cfgB.diverse)
    (hmdp : cfgA.min_diff_parts = cfgB.min_diff_parts)
    (hqq : cfgA.per_part_max = cfgB.per_part_max)
    (hndA : ((effCM cfgA).map Prod.fst).Nodup) (hndB : ((effCM cfgB).map Prod.fst).Nodup)
    (hcrA : ((effCR cfgA).map Prod.fst).Nodup) (hcrB : ((effCR cfgB).map Prod.fst).Nodup)
    (hsubA : ∀ kv ∈ effCM cfgA, kv.1 ∈ MAIN_SCORES)
    (hsubB : ∀ kv ∈ effCM cfgB, kv.1 ∈ MAIN_SCORES) :
    optimise cat invA cfgA = optimise cat invB cfgB := by
  unfold makeRunSignature at hsig
  rw [RunSig.mk.injEq] at hsig
  obtain ⟨hinv, hwm, hwr, hcm, hcr, _, htop, hnorm⟩ := hsig
  have hinv' := List.map_inj_left.mp hinv
  have hpE : invA.engine.Perm invB.engine := by
    have := hinv' "ENGINE" (by simp [CATEGORIES])
    simp only [Prod.mk.injEq, true_and] at this
    exact sortedStr_eq_perm _ _ this
  have hpX : invA.exhaust.Perm invB.exhaust := by
    have := hinv' "EXHAUST" (by simp [CATEGORIES])
    simp only [Prod.mk.injEq, true_and] at this
    exact sortedStr_eq_perm _ _ this
  have hpS : invA.suspension.Perm invB.suspension := by
    have := hinv' "SUSPENSION" (by simp [CATEGORIES])
    simp only [Prod.mk.injEq, true_and] at this
    exact sortedStr_eq_perm _ _ this
  have hpG : invA.gearbox.Perm invB.gearbox := by
    have := hinv' "GEARBOX" (by simp [CATEGORIES])
    simp only [Prod.mk.injEq, true_and] at this
    exact sortedStr_eq_perm _ _ this
  have hpT : invA.trinket.Perm invB.trinket := by
    have := hinv' "TRINKET" (by simp [CATEGORIES])
    simp only [Prod.mk.injEq, true_and] at this
    exact sortedStr_eq_perm _ _ this
  have hcm' : ∀ k ∈ MAIN_SCORES,
      ((effCM cfgA).lookup k).getD (none, none) = ((effCM cfgB).lookup k).getD (none, none) := by
    intro k hk
    have hk' : k ∈ pySortedStr MAIN_SCORES :=
      (List.perm_insertionSort _ MAIN_SCORES).symm.subset hk
    have := List.map_inj_left.mp hcm k hk'
    simp only [Prod.mk.injEq, true_and] at this
    exact this
  have hcr' : ∀ k ∈ RAW_STAT_KEYS,
      ((effCR cfgA).lookup k).getD (none, none) = ((effCR cfgB).lookup k).getD (none, none) := by
    intro k hk
    have hk' : k ∈ pySortedStr RAW_STAT_KEYS :=
      (List.perm_insertionSort _ RAW_STAT_KEYS).symm.subset hk
    have := List.map_inj_left.mp hcr k hk'
    simp only [Prod.mk.injEq, true_and] at this
    exact this
  have hpass : passes (effCM cfgA) (effCR cfgA) = passes (effCM cfgB) (effCR cfgB) := by
    funext t
    unfold passes
    rw [passMain_eq_keyed _ t hndA hsubA, passMain_eq_keyed _ t hndB hsubB,
      passRaw_eq_keyed _ t hcrA, passRaw_eq_keyed _ t hcrB]
    rw [all_congr_mem MAIN_SCORES _ _ (fun k hk => by rw [hcm' k hk]),
      all_congr_mem RAW_STAT_KEYS _ _ (fun k hk => by rw [hcr' k hk])]
  have hpost : ∀ dfE dfX dfS dfG dfT,
      optimisePost dfE dfX dfS dfG dfT cfgA = optimisePost dfE dfX dfS dfG dfT cfgB :=
    fun dfE dfX dfS dfG dfT => optimisePost_congr dfE dfX dfS dfG dfT cfgA cfgB htop hnorm
      hdiv hmdp hqq (effWM_perm_of_sig cfgA cfgB hwm)
      (sortedPairs_eq_perm _ _ hwr) hpass
  unfold optimise
  simp only [bind, Except.bind]
  rw [filt_congr cat.engine _ _ "ENGINE" hpE, filt_congr cat.exhaust _ _ "EXHAUST" hpX,
    filt_congr cat.suspension _ _ "SUSPENSION" hpS, filt_congr cat.gearbox _ _ "GEARBOX" hpG,
    filt_congr cat.trinket _ _ "TRINKET" hpT]
  cases filt cat.engine invB.engine "ENGINE" with
  | error e => rfl
  | ok dfE =>
  cases filt cat.exhaust invB.exhaust "EXHAUST" with
  | error e => rfl
  | ok dfX =>
  cases filt cat.suspension invB.suspension "SUSPENSION" with
  | error e => rfl
  | ok dfS =>
  cases filt cat.gearbox invB.gearbox "GEARBOX" with
  | error e => rfl
  | ok dfG =>
  cases filt cat.trinket invB.trinket "TRINKET" with
  | error e => rfl
  | ok dfT => exact hpost dfE dfX dfS dfG dfT

def invPermuted : Inventory := ⟨["e2", "e1"], ["x1"], ["s1"], ["g1"], ["t2", "t1", "t3"]⟩

def cfgC7A : OptimiseConfig :=
  { top_n := 2, weights_main := some [("race", 1), ("coin", 2)],
    weights_raw := some [("Speed", 1)], normalize_objective := false,
    diverse := true, min_diff_parts := 2, per_part_max := none,
    constraints_main := some [("race", (some 0, none))],
    constraints_raw := some [("Speed", (none, some 100))] }

def cfgC7B : OptimiseConfig :=
  { top_n := 2, weights_main := some [("coin", 2), ("race", 1)],
    weights_raw := some [("Speed", 1)], normalize_objective := false,
    diverse := true, min_diff_parts := 2, per_part_max := none,
    constraints_main := some [("race", (some 0, none))],
    constraints_raw := some [("Speed", (none, some 100))] }

/-- C7 witness: a permuted inventory and weight mapping with an equal
signature yields the identical result table. -/
theorem c7_signature_amended_witness :
    optimise catW invW cfgC7A = optimise catW invPermuted cfgC7B :=
  c7_signature_amended catW invW invPermuted cfgC7A cfgC7B "Custom" (by decide) (by decide)
    (by decide) (by decide) (by decide) (by decide) (by decide) (by decide) (by decide)
    (by decide)

end OBK
